import Mathlib

/-!
Verification of the UpNDown cooperative card game engine
(`packages/engine/src/rules.ts`, `packages/engine/src/init.ts`,
`packages/engine/src/transitions.ts`) and the realtime server's
rate limiter (`apps/server/src/index.ts`).

The TypeScript engine is translated into pure Lean functions.  The
engine clones its input state and mutates only the clone, so
state-passing translation is faithful; `Date.now()` becomes an explicit
`now : Int` argument, and `Math.random()` in the exception action
becomes an explicit insertion-position argument (JS `splice` clamps an
out-of-range start index to the array length, which `List.take` mirrors).
-/

namespace UpNDown

/-- `Card` from `shared-types`: identity is the id, value drives rules. -/
structure Card where
  id : String
  value : Int
deriving DecidableEq

/-- Pile orientation (`PileType` in `shared-types`). -/
inductive PileType where
  | ascending
  | descending
deriving DecidableEq

/-- `FoundationPile`: only the current top card is retained. -/
structure FoundationPile where
  id : Int
  type : PileType
  topCard : Card
deriving DecidableEq

/-- `Player` from `shared-types`. -/
structure Player where
  id : String
  name : String
  hand : List Card
  isHost : Bool
deriving DecidableEq

/-- `GameSettings` from `shared-types`. -/
structure GameSettings where
  minCardValue : Int
  maxCardValue : Int
  handSize : Nat
  minPlayers : Nat
  maxPlayers : Nat
  minCardsPerTurn : Nat
  autoRefillHand : Bool
  allowUndo : Bool
  privateGame : Bool
deriving DecidableEq

/-- Per-player statistics block kept inside `GameState.statistics`. -/
structure PlayerStatistics where
  cardsPlayed : Nat
  totalMovement : Nat
  specialPlays : Nat
  nasCheatsUsed : Nat
deriving DecidableEq

/-- The `statistics` block of `GameState`.  The JS record
`players: Record<string, PlayerStatistics>` is modelled as an
association list (JS object insertion order: updates keep position,
new keys append). -/
structure GameStatistics where
  turns : Nat
  startedAtMs : Int
  endedAtMs : Option Int
  players : List (String × PlayerStatistics)
deriving DecidableEq

/-- The exception-action (`nasCheat`) block of `GameState`. -/
structure NasCheatState where
  enabledPlayerIds : List String
  usedThisTurnByPlayerId : List (String × Bool)
deriving DecidableEq

/-- `GamePhase` from `shared-types`. -/
inductive GamePhase where
  | lobby
  | playing
  | won
  | lost
deriving DecidableEq

/-- The root aggregate `GameState`. -/
structure GameState where
  gameId : String
  hostId : String
  players : List Player
  foundationPiles : List FoundationPile
  drawPile : List Card
  currentPlayerIndex : Nat
  gamePhase : GamePhase
  cardsPlayedThisTurn : Nat
  statistics : GameStatistics
  nasCheat : NasCheatState
  settings : GameSettings
  isSolitaire : Bool
deriving DecidableEq

/-- `EngineErrorCode` from `engine/src/errors.ts`. -/
inductive EngineErrorCode where
  | GAME_NOT_PLAYING
  | INVALID_PLAYER_COUNT
  | SOLITAIRE_PLAYER_COUNT_INVALID
  | SOLITAIRE_SETTINGS_INVALID
  | HOST_NOT_IN_PLAYERS
  | INSUFFICIENT_DECK_FOR_DEAL
  | NOT_PLAYER_TURN
  | CARD_NOT_FOUND
  | PILE_NOT_FOUND
  | INVALID_PLAY
  | MIN_CARDS_NOT_MET
deriving DecidableEq

/-- `EngineError`: a typed error code plus a human-readable message. -/
structure EngineError where
  code : EngineErrorCode
  message : String
deriving DecidableEq

/-! ## Rule validator (`engine/src/rules.ts`) -/

/-- `isValidPlay(card, pile)` from `rules.ts`. -/
def isValidPlay (card : Card) (pile : FoundationPile) : Bool :=
  let topValue := pile.topCard.value
  match pile.type with
  | .ascending => decide (topValue < card.value) || decide (card.value = topValue - 10)
  | .descending => decide (card.value < topValue) || decide (card.value = topValue + 10)

/-- `requiredCardsForTurn(minCardsPerTurn, drawPileCount)` from `rules.ts`. -/
def requiredCardsForTurn (minCardsPerTurn : Nat) (drawPileCount : Nat) : Nat :=
  if drawPileCount = 0 then 1 else minCardsPerTurn

/-! ## Deck and pile initialisation (`engine/src/init.ts`) -/

/-- `createFoundationPiles(settings)` from `init.ts`: two ascending piles
starting one below the minimum value, two descending starting one above
the maximum. -/
def createFoundationPiles (settings : GameSettings) : List FoundationPile :=
  let ascendingBase := settings.minCardValue - 1
  let descendingBase := settings.maxCardValue + 1
  [ { id := 0, type := .ascending, topCard := { id := "f-0", value := ascendingBase } },
    { id := 1, type := .ascending, topCard := { id := "f-1", value := ascendingBase } },
    { id := 2, type := .descending, topCard := { id := "f-2", value := descendingBase } },
    { id := 3, type := .descending, topCard := { id := "f-3", value := descendingBase } } ]

/-! ## Engine helpers (`engine/src/transitions.ts`) -/

/-- `emptyPlayerStats()` from `transitions.ts`. -/
def emptyPlayerStats : PlayerStatistics :=
  { cardsPlayed := 0, totalMovement := 0, specialPlays := 0, nasCheatsUsed := 0 }

/-- Update-or-append on an association list, mirroring JS object key
assignment: an existing key keeps its position, a new key is appended. -/
def setEntry {β : Type} (m : List (String × β)) (k : String) (v : β) : List (String × β) :=
  if m.any (fun p => p.1 == k) then
    m.map (fun p => if p.1 == k then (k, v) else p)
  else
    m ++ [(k, v)]

/-- `ensureStatsForPlayers(state)` from `transitions.ts`: add an empty
statistics entry for any player missing one. -/
def ensureStatsForPlayers (state : GameState) : GameState :=
  let playersStats := state.players.foldl
    (fun acc player =>
      if (acc.lookup player.id).isSome then acc else acc ++ [(player.id, emptyPlayerStats)])
    state.statistics.players
  { state with statistics := { state.statistics with players := playersStats } }

/-- `drawOne(drawPile)` from `transitions.ts`: take the front card. -/
def drawOne : List Card → Option (Card × List Card)
  | [] => none
  | c :: rest => some (c, rest)

/-- `drawToHand(player, drawPile, handSize)` from `transitions.ts`:
draw from the front of the pile while the hand is below `handSize`. -/
def drawToHand (hand : List Card) (drawPile : List Card) (handSize : Nat) :
    List Card × List Card :=
  match drawPile with
  | [] => (hand, [])
  | c :: rest =>
    if hand.length < handSize then drawToHand (hand ++ [c]) rest handSize
    else (hand, c :: rest)

/-- The inner `dfs` of `canPlayerSatisfyRequiredPlays`: try every
(card, pile) pair that is currently legal; recurse with the card removed
from the hand, that pile's top replaced and, when auto-refill is active
and the draw pile non-empty, one card moved from the front of the draw
pile into the hand.  The first argument counts the remaining depth
(`required - depth` in the source). -/
def dfsCanPlay (autoRefillHand : Bool) :
    Nat → List Card → List FoundationPile → List Card → Bool
  | 0, _, _, _ => true
  | n + 1, hand, piles, draw =>
    (List.range hand.length).any fun cardIndex =>
      (List.range piles.length).any fun pileIndex =>
        match hand[cardIndex]?, piles[pileIndex]? with
        | some card, some pile =>
          isValidPlay card pile &&
            dfsCanPlay autoRefillHand n
              (hand.eraseIdx cardIndex ++
                (if autoRefillHand && !draw.isEmpty then draw.take 1 else []))
              (piles.set pileIndex { pile with topCard := card })
              (if autoRefillHand && !draw.isEmpty then draw.drop 1 else draw)
        | _, _ => false

/-- `canPlayerSatisfyRequiredPlays(hand, pileTops, drawPile, required,
autoRefillHand)` from `transitions.ts`. -/
def canPlayerSatisfyRequiredPlays (hand : List Card) (pileTops : List FoundationPile)
    (drawPile : List Card) (required : Nat) (autoRefillHand : Bool) : Bool :=
  if required ≤ 0 then true
  else dfsCanPlay autoRefillHand required hand pileTops drawPile

/-- The Boolean test `players.every(p => p.hand.length === 0)` used by
`evaluateWin` and `nextPlayerIndexWithCards`. -/
def allHandsEmpty (players : List Player) : Bool :=
  players.all (fun player => player.hand.length == 0)

/-- `evaluateWin(state)` from `transitions.ts`; `now` stands for
`Date.now()`. -/
def evaluateWin (now : Int) (state : GameState) : GameState :=
  if allHandsEmpty state.players then
    { state with
      gamePhase := .won,
      statistics := { state.statistics with
        endedAtMs := some (state.statistics.endedAtMs.getD now) } }
  else state

/-- The auto-refill policy the loss evaluator feeds to the search:
solitaire always searches with refill on, multiplayer uses the setting. -/
def lossSearchAutoRefill (state : GameState) : Bool :=
  if state.isSolitaire then true else state.settings.autoRefillHand

/-- `evaluateLossForCurrentPlayer(state)` from `transitions.ts`. -/
def evaluateLossForCurrentPlayer (now : Int) (state : GameState) : GameState :=
  if state.gamePhase ≠ .playing then state
  else
    match state.players[state.currentPlayerIndex]? with
    | none => state
    | some currentPlayer =>
      if state.isSolitaire then
        if canPlayerSatisfyRequiredPlays currentPlayer.hand state.foundationPiles
            state.drawPile 1 true then state
        else
          { state with
            gamePhase := .lost,
            statistics := { state.statistics with
              endedAtMs := some (state.statistics.endedAtMs.getD now) } }
      else
        if canPlayerSatisfyRequiredPlays currentPlayer.hand state.foundationPiles
            state.drawPile 1 state.settings.autoRefillHand then state
        else
          let required := requiredCardsForTurn state.settings.minCardsPerTurn
            state.drawPile.length
          if state.cardsPlayedThisTurn ≥ required then state
          else
            { state with
              gamePhase := .lost,
              statistics := { state.statistics with
                endedAtMs := some (state.statistics.endedAtMs.getD now) } }

/-- The trailing expression of every state-mutating engine operation:
`ensureStatsForPlayers(evaluateLossForCurrentPlayer(evaluateWin(state)))`. -/
def finalizeState (now : Int) (state : GameState) : GameState :=
  ensureStatsForPlayers (evaluateLossForCurrentPlayer now (evaluateWin now state))

/-- The `for offset in 1..players.length` search of
`nextPlayerIndexWithCards`, given the list of offsets still to try. -/
def nextIndexLoop (players : List Player) (fromIndex : Nat) : List Nat → Nat
  | [] => fromIndex
  | offset :: rest =>
    let idx := (fromIndex + offset) % players.length
    match players[idx]? with
    | some player =>
      if player.hand.length > 0 then idx else nextIndexLoop players fromIndex rest
    | none => nextIndexLoop players fromIndex rest

/-- `nextPlayerIndexWithCards(players, fromIndex)` from `transitions.ts`. -/
def nextPlayerIndexWithCards (players : List Player) (fromIndex : Nat) : Nat :=
  if allHandsEmpty players then fromIndex
  else nextIndexLoop players fromIndex ((List.range players.length).map (· + 1))

/-! ## Starting a game (`createStartedGameState`) -/

/-- `EnginePlayerInput` from `transitions.ts`. -/
structure EnginePlayerInput where
  id : String
  name : String
deriving DecidableEq

/-- `CreateStartedGameParams` from `transitions.ts`. -/
structure CreateStartedGameParams where
  gameId : String
  hostId : String
  players : List EnginePlayerInput
  settings : GameSettings
  isSolitaire : Bool
  deck : List Card
deriving DecidableEq

/-- JS `String.prototype.trim` — whitespace stripped from both ends —
computed on the character list (so that concrete games evaluate). -/
def jsTrim (s : String) : String :=
  String.mk
    (((s.data.dropWhile Char.isWhitespace).reverse.dropWhile Char.isWhitespace).reverse)

/-- JS `String.prototype.toLowerCase`, computed characterwise. -/
def jsToLower (s : String) : String :=
  String.mk (s.data.map Char.toLower)

/-- One round of the round-robin deal: each player in order takes the
front card of the deck; the inner loop stops when the deck runs out. -/
def dealRound : List Player → List Card → List Player × List Card
  | [], deck => ([], deck)
  | player :: ps, [] => (player :: ps, [])
  | player :: ps, c :: deck =>
    let (ps', deck') := dealRound ps deck
    ({ player with hand := player.hand ++ [c] } :: ps', deck')

/-- `handSize` rounds of the round-robin deal. -/
def dealRounds : Nat → List Player → List Card → List Player × List Card
  | 0, players, deck => (players, deck)
  | n + 1, players, deck =>
    let (players', deck') := dealRound players deck
    dealRounds n players' deck'

/-- `createStartedGameState(params)` from `transitions.ts`; `now` stands
for `Date.now()`. -/
def createStartedGameState (now : Int) (params : CreateStartedGameParams) :
    Except EngineError GameState :=
  if params.isSolitaire ∧ params.players.length ≠ 1 then
    .error ⟨.SOLITAIRE_PLAYER_COUNT_INVALID, "Solitaire requires exactly one player"⟩
  else if params.isSolitaire ∧ (params.settings.minPlayers ≠ 1 ∨ params.settings.maxPlayers ≠ 1) then
    .error ⟨.SOLITAIRE_SETTINGS_INVALID, "Solitaire requires minPlayers=1 and maxPlayers=1"⟩
  else if params.isSolitaire ∧ ¬params.settings.autoRefillHand then
    .error ⟨.SOLITAIRE_SETTINGS_INVALID, "Solitaire requires autoRefillHand=true"⟩
  else if ¬params.isSolitaire ∧
      (params.players.length < params.settings.minPlayers ∨
       params.players.length > params.settings.maxPlayers) then
    .error ⟨.INVALID_PLAYER_COUNT, "Player count is outside configured game limits"⟩
  else if (params.players.filter (fun player => player.id == params.hostId)).length ≠ 1 then
    .error ⟨.HOST_NOT_IN_PLAYERS, "hostId must match exactly one player"⟩
  else
    let initializedPlayers : List Player := params.players.map (fun player =>
      { id := player.id, name := player.name, hand := [],
        isHost := player.id == params.hostId })
    let (dealtPlayers, remainingDeck) :=
      dealRounds params.settings.handSize initializedPlayers params.deck
    let state : GameState :=
      { gameId := params.gameId
        hostId := params.hostId
        players := dealtPlayers
        foundationPiles := createFoundationPiles params.settings
        drawPile := remainingDeck
        currentPlayerIndex := 0
        gamePhase := .playing
        cardsPlayedThisTurn := 0
        statistics :=
          { turns := 0, startedAtMs := now, endedAtMs := none,
            players := dealtPlayers.map (fun player => (player.id, emptyPlayerStats)) }
        nasCheat :=
          { enabledPlayerIds :=
              (dealtPlayers.filter (fun player => jsToLower (jsTrim player.name) == "nas")).map
                Player.id,
            usedThisTurnByPlayerId := dealtPlayers.map (fun player => (player.id, false)) }
        settings := params.settings
        isSolitaire := params.isSolitaire }
    .ok (finalizeState now state)

/-! ## Playing a card (`playCard`) -/

/-- Replace the top card of the first pile whose id matches `pileId`
(`find` in the source returns a reference to the first match, whose
`topCard` field is then reassigned). -/
def setTopOfFirst : List FoundationPile → Int → Card → List FoundationPile
  | [], _, _ => []
  | pile :: ps, pileId, card =>
    if pile.id == pileId then { pile with topCard := card } :: ps
    else pile :: setTopOfFirst ps pileId card

/-- The skip-by-10 test of `playCard`: the played card moved exactly 10
in the pile's wrong direction. -/
def isBackwardTen (pileType : PileType) (movementDelta : Int) : Bool :=
  match pileType with
  | .ascending => decide (movementDelta = -10)
  | .descending => decide (movementDelta = 10)

/-- The success path of `playCard`, given the resolved player index,
player, card index, card, and (first matching) pile: replace the pile
top, bump `cardsPlayedThisTurn`, update the actor's statistics, and, in
solitaire or with auto-refill on, refill the hand from the draw pile. -/
def playCardApply (state : GameState) (i : Nat) (player : Player) (j : Nat)
    (card : Card) (pile : FoundationPile) (pileId : Int) : GameState :=
  let newHand := player.hand.eraseIdx j
  let refilled :=
    if state.isSolitaire || state.settings.autoRefillHand then
      drawToHand newHand state.drawPile state.settings.handSize
    else (newHand, state.drawPile)
  let movementDelta := card.value - pile.topCard.value
  let activeStats := (state.statistics.players.lookup player.id).getD emptyPlayerStats
  { state with
    players := state.players.set i { player with hand := refilled.1 }
    foundationPiles := setTopOfFirst state.foundationPiles pileId card
    drawPile := refilled.2
    cardsPlayedThisTurn := state.cardsPlayedThisTurn + 1
    statistics := { state.statistics with
      players := setEntry state.statistics.players player.id
        { cardsPlayed := activeStats.cardsPlayed + 1
          totalMovement := activeStats.totalMovement + movementDelta.natAbs
          specialPlays := activeStats.specialPlays +
            (if isBackwardTen pile.type movementDelta then 1 else 0)
          nasCheatsUsed := activeStats.nasCheatsUsed } } }

/-- `playCard` before its trailing win/loss evaluation: the validation
chain of `transitions.ts` in source order. -/
def playCardCore (state : GameState) (playerId : String) (cardId : String)
    (pileId : Int) : Except EngineError GameState :=
  if state.gamePhase ≠ .playing then
    .error ⟨.GAME_NOT_PLAYING, "Cannot play a card when game is not in playing phase"⟩
  else
    match state.players.findIdx? (fun player => player.id == playerId) with
    | none => .error ⟨.NOT_PLAYER_TURN, "Player not found in game"⟩
    | some i =>
      if ¬state.isSolitaire ∧ i ≠ state.currentPlayerIndex then
        .error ⟨.NOT_PLAYER_TURN, "Only the active player may play a card"⟩
      else
        match state.players[i]? with
        | none => .error ⟨.NOT_PLAYER_TURN, "Player not found in game"⟩
        | some player =>
          match player.hand.findIdx? (fun card => card.id == cardId) with
          | none => .error ⟨.CARD_NOT_FOUND, "Card does not exist in player hand"⟩
          | some j =>
            match state.foundationPiles.find? (fun pile => pile.id == pileId) with
            | none => .error ⟨.PILE_NOT_FOUND, "Foundation pile does not exist"⟩
            | some pile =>
              match player.hand[j]? with
              | none => .error ⟨.CARD_NOT_FOUND, "Card does not exist in player hand"⟩
              | some card =>
                if isValidPlay card pile then
                  .ok (playCardApply state i player j card pile pileId)
                else
                  .error ⟨.INVALID_PLAY, "Card cannot be played on selected foundation pile"⟩

/-- `playCard(state, playerId, cardId, pileId)` from `transitions.ts`. -/
def playCard (now : Int) (state : GameState) (playerId : String) (cardId : String)
    (pileId : Int) : Except EngineError GameState :=
  (playCardCore state playerId cardId pileId).map (finalizeState now)

/-! ## Ending a turn (`endTurn`) -/

/-- The success path of `endTurn`: reset `cardsPlayedThisTurn`, reset
every player's per-turn exception flag, bump the turn counter, refill
the ending player's hand when auto-refill is off, then advance
`currentPlayerIndex` to the next player holding cards. -/
def endTurnApply (state : GameState) (currentPlayer : Player) : GameState :=
  let refilled :=
    if ¬state.settings.autoRefillHand then
      drawToHand currentPlayer.hand state.drawPile state.settings.handSize
    else (currentPlayer.hand, state.drawPile)
  let players' :=
    if ¬state.settings.autoRefillHand then
      state.players.set state.currentPlayerIndex { currentPlayer with hand := refilled.1 }
    else state.players
  { state with
    players := players'
    drawPile := refilled.2
    cardsPlayedThisTurn := 0
    currentPlayerIndex := nextPlayerIndexWithCards players' state.currentPlayerIndex
    statistics := { state.statistics with turns := state.statistics.turns + 1 }
    nasCheat := { state.nasCheat with
      usedThisTurnByPlayerId := state.players.map (fun player => (player.id, false)) } }

/-- `endTurn(state, playerId)` from `transitions.ts`. -/
def endTurn (now : Int) (state : GameState) (playerId : String) :
    Except EngineError GameState :=
  if state.gamePhase ≠ .playing then
    .error ⟨.GAME_NOT_PLAYING, "Cannot end turn when game is not in playing phase"⟩
  else if state.isSolitaire then
    .ok state
  else
    match state.players[state.currentPlayerIndex]? with
    | none => .error ⟨.NOT_PLAYER_TURN, "Only active player can end turn"⟩
    | some currentPlayer =>
      if currentPlayer.id ≠ playerId then
        .error ⟨.NOT_PLAYER_TURN, "Only active player can end turn"⟩
      else
        if state.cardsPlayedThisTurn <
            requiredCardsForTurn state.settings.minCardsPerTurn state.drawPile.length then
          .error ⟨.MIN_CARDS_NOT_MET, "You must play at least required card(s) before ending your turn"⟩
        else
          .ok (finalizeState now (endTurnApply state currentPlayer))

/-! ## The exception action (`useNasCheat`) -/

/-- Insert `x` at position `i` of `l`, clamping `i` to the length —
exactly JS `l.splice(i, 0, x)`. -/
def spliceInsert (l : List Card) (i : Nat) (x : Card) : List Card :=
  l.take i ++ x :: l.drop i

/-- The success path of `useNasCheat`, given the resolved player index,
player, card index, traded card, drawn replacement and remaining draw
pile: swap the traded card for the replacement, reinsert the traded card
into the draw pile at `insertAt`, mark the per-turn flag and bump the
statistic. -/
def useNasCheatApply (state : GameState) (playerId : String) (i : Nat) (player : Player)
    (j : Nat) (tradedCard : Card) (replacementCard : Card) (drawRest : List Card)
    (insertAt : Nat) : GameState :=
  let playerStats := (state.statistics.players.lookup playerId).getD emptyPlayerStats
  { state with
    players := state.players.set i
      { player with hand := player.hand.eraseIdx j ++ [replacementCard] }
    drawPile := spliceInsert drawRest insertAt tradedCard
    nasCheat := { state.nasCheat with
      usedThisTurnByPlayerId := setEntry state.nasCheat.usedThisTurnByPlayerId playerId true }
    statistics := { state.statistics with
      players := setEntry state.statistics.players playerId
        { playerStats with nasCheatsUsed := playerStats.nasCheatsUsed + 1 } } }

/-- `useNasCheat(state, playerId, cardId)` from `transitions.ts`;
`insertAt` stands for the `randomIndex(drawPile.length + 1)` draw (JS
`splice` clamps an over-large index, as does `spliceInsert`).  Note the
operation ends with `ensureStatsForPlayers` only: no win/loss
re-evaluation. -/
def useNasCheat (state : GameState) (playerId : String) (cardId : String)
    (insertAt : Nat) : Except EngineError GameState :=
  if state.gamePhase ≠ .playing then
    .error ⟨.GAME_NOT_PLAYING, "Cannot use Nas cheat when game is not in playing phase"⟩
  else
    match state.players.findIdx? (fun player => player.id == playerId) with
    | none => .error ⟨.NOT_PLAYER_TURN, "Player not found in game"⟩
    | some i =>
      if ¬state.isSolitaire ∧ i ≠ state.currentPlayerIndex then
        .error ⟨.NOT_PLAYER_TURN, "Only the active player may use Nas cheat"⟩
      else if ¬state.nasCheat.enabledPlayerIds.contains playerId then
        .error ⟨.INVALID_PLAY, "Nas cheat mode is not enabled for this player"⟩
      else if (state.nasCheat.usedThisTurnByPlayerId.lookup playerId).getD false then
        .error ⟨.INVALID_PLAY, "Nas cheat can only be used once per turn"⟩
      else
        match state.drawPile with
        | [] => .error ⟨.INVALID_PLAY, "Nas cheat requires at least one card in draw pile"⟩
        | replacementCard :: drawRest =>
          match state.players[i]? with
          | none => .error ⟨.NOT_PLAYER_TURN, "Player not found in game"⟩
          | some player =>
            match player.hand.findIdx? (fun card => card.id == cardId) with
            | none => .error ⟨.CARD_NOT_FOUND, "Card does not exist in player hand"⟩
            | some j =>
              match player.hand[j]? with
              | none => .error ⟨.CARD_NOT_FOUND, "Card does not exist in player hand"⟩
              | some tradedCard =>
                .ok (ensureStatsForPlayers
                  (useNasCheatApply state playerId i player j tradedCard replacementCard
                    drawRest insertAt))

/-! ## Action sequences -/

/-- One engine action, with its nondeterministic inputs (`Date.now()`
and the random insertion index) made explicit. -/
inductive EngineAction where
  | play (now : Int) (playerId cardId : String) (pileId : Int)
  | turnEnd (now : Int) (playerId : String)
  | nas (playerId cardId : String) (insertAt : Nat)
deriving DecidableEq

/-- Apply one engine action. -/
def applyAction (state : GameState) : EngineAction → Except EngineError GameState
  | .play now playerId cardId pileId => playCard now state playerId cardId pileId
  | .turnEnd now playerId => endTurn now state playerId
  | .nas playerId cardId insertAt => useNasCheat state playerId cardId insertAt

/-- Run a sequence of engine actions, requiring every one to succeed. -/
def runActions : GameState → List EngineAction → Except EngineError GameState
  | state, [] => .ok state
  | state, action :: rest =>
    match applyAction state action with
    | .ok state' => runActions state' rest
    | .error e => .error e

/-- All cards currently in play: every player's hand, the draw pile, and
the four current pile tops (cards covered on a pile are retired). -/
def allCards (state : GameState) : List Card :=
  (state.players.map Player.hand).flatten ++ state.drawPile ++
    state.foundationPiles.map FoundationPile.topCard

/-- The room manager stores the engine's return value back into the room
on success and keeps its previous state when the engine throws. -/
def recoverState (state : GameState) : Except EngineError GameState → GameState
  | .ok s' => s'
  | .error _ => state

/-! ## Spec-side description of the exhaustive move evaluator (§4.2) -/

/-- Spec-side (refinement) definition for §4.2: there is a sequence of
`n` chained legal plays — each play takes a card currently in the hand
that `isValidPlay` accepts on some pile, replaces that pile's top with
it, and, when auto-refill is active and the draw pile non-empty, moves
one card from the front of the draw pile into the hand before the next
play. -/
inductive ChainedPlays (autoRefillHand : Bool) :
    Nat → List Card → List FoundationPile → List Card → Prop where
  | nil (hand : List Card) (piles : List FoundationPile) (draw : List Card) :
      ChainedPlays autoRefillHand 0 hand piles draw
  | step {n : Nat} {hand : List Card} {piles : List FoundationPile} {draw : List Card}
      (cardIndex pileIndex : Nat) (card : Card) (pile : FoundationPile)
      (hcard : hand[cardIndex]? = some card)
      (hpile : piles[pileIndex]? = some pile)
      (hvalid : isValidPlay card pile = true)
      (htail : ChainedPlays autoRefillHand n
        (hand.eraseIdx cardIndex ++
          (if autoRefillHand && !draw.isEmpty then draw.take 1 else []))
        (piles.set pileIndex { pile with topCard := card })
        (if autoRefillHand && !draw.isEmpty then draw.drop 1 else draw)) :
      ChainedPlays autoRefillHand (n + 1) hand piles draw

/-! ## Concrete demonstration games (used by witnesses and counterexamples) -/

/-- Solitaire settings for the concrete demonstration games. -/
def demoSettings : GameSettings :=
  { minCardValue := 2, maxCardValue := 99, handSize := 1, minPlayers := 1,
    maxPlayers := 1, minCardsPerTurn := 1, autoRefillHand := true,
    allowUndo := false, privateGame := false }

/-- A solitaire game for one player named "nas" (the reserved trigger
name, so the exception action is enabled) with a hand-picked deck. -/
def demoParams : CreateStartedGameParams :=
  { gameId := "DEMO01", hostId := "p1",
    players := [{ id := "p1", name := "nas" }],
    settings := demoSettings, isSolitaire := true,
    deck := [⟨"c50a", 50⟩, ⟨"c50b", 50⟩, ⟨"c40a", 40⟩, ⟨"c40b", 40⟩,
             ⟨"c60", 60⟩, ⟨"c45", 45⟩] }

/-- Four legal plays that raise both ascending tops to 50 and lower both
descending tops to 40, followed by the exception action trading away the
only playable card (value 60) for the dead card of value 45. -/
def demoActions : List EngineAction :=
  [ .play 0 "p1" "c50a" 0, .play 0 "p1" "c50b" 1,
    .play 0 "p1" "c40a" 2, .play 0 "p1" "c40b" 3,
    .nas "p1" "c60" 0 ]

/-- A tiny state whose single player has an empty hand. -/
def demoWonState : GameState :=
  { gameId := "G00001", hostId := "p1",
    players := [{ id := "p1", name := "Ann", hand := [], isHost := true }],
    foundationPiles := createFoundationPiles demoSettings,
    drawPile := [], currentPlayerIndex := 0, gamePhase := .playing,
    cardsPlayedThisTurn := 0,
    statistics := { turns := 0, startedAtMs := 0, endedAtMs := none,
                    players := [("p1", emptyPlayerStats)] },
    nasCheat := { enabledPlayerIds := [], usedThisTurnByPlayerId := [("p1", false)] },
    settings := demoSettings, isSolitaire := true }

/-- The demonstration game after the whole action sequence. -/
def demoResult : Except EngineError GameState :=
  match createStartedGameState 0 demoParams with
  | .ok s => runActions s demoActions
  | .error e => .error e

/-- The successful start of the demonstration game (fallback value is
never reached). -/
def demoStart : GameState :=
  match createStartedGameState 0 demoParams with
  | .ok s => s
  | .error _ => demoWonState

/-- The final state of the demonstration game (fallback value is never
reached). -/
def demoFinal : GameState :=
  match demoResult with
  | .ok s => s
  | .error _ => demoWonState

/-! ## Claim C7: is the loss evaluation in force after every operation? -/

/-- The §4.4 invariant: while the phase is `playing`, the current player
has a legal play (depth-1 search under the game's refill policy) or, in
multiplayer, has already met the turn's required-play count. -/
def lossEvaluationInForce (s : GameState) : Prop :=
  s.gamePhase = .playing →
    ∀ cp, s.players[s.currentPlayerIndex]? = some cp →
      canPlayerSatisfyRequiredPlays cp.hand s.foundationPiles s.drawPile 1
        (lossSearchAutoRefill s) = true ∨
      (s.isSolitaire = false ∧
        requiredCardsForTurn s.settings.minCardsPerTurn s.drawPile.length ≤
          s.cardsPlayedThisTurn)

/-! ## Claim C4: `endTurn` -/

/-- Two-player settings for the multiplayer demonstration state. -/
def demoMultiSettings : GameSettings :=
  { minCardValue := 2, maxCardValue := 99, handSize := 2, minPlayers := 2,
    maxPlayers := 2, minCardsPerTurn := 1, autoRefillHand := true,
    allowUndo := false, privateGame := false }

/-- The first player of the multiplayer demonstration state. -/
def demoAnn : Player :=
  { id := "a", name := "Ann", hand := [⟨"c9", 9⟩], isHost := true }

/-- A concrete two-player mid-game state: Ann (current) has played one
card this turn and both players still hold a card. -/
def demoMultiState : GameState :=
  { gameId := "G00002", hostId := "a",
    players := [demoAnn, { id := "b", name := "Bob", hand := [⟨"c8", 8⟩], isHost := false }],
    foundationPiles := createFoundationPiles demoMultiSettings,
    drawPile := [⟨"c7", 7⟩],
    currentPlayerIndex := 0, gamePhase := .playing, cardsPlayedThisTurn := 1,
    statistics := { turns := 0, startedAtMs := 0, endedAtMs := none,
                    players := [("a", emptyPlayerStats), ("b", emptyPlayerStats)] },
    nasCheat := { enabledPlayerIds := [],
                  usedThisTurnByPlayerId := [("a", false), ("b", false)] },
    settings := demoMultiSettings, isSolitaire := false }

/-- A concrete solitaire state about to use the exception action: the
single player (exception-enabled) holds one card and the draw pile holds
one card. -/
def demoPreNasState : GameState :=
  { gameId := "DEMO01", hostId := "p1",
    players := [{ id := "p1", name := "nas", hand := [⟨"c60", 60⟩], isHost := true }],
    foundationPiles :=
      [ { id := 0, type := .ascending, topCard := ⟨"c50a", 50⟩ },
        { id := 1, type := .ascending, topCard := ⟨"c50b", 50⟩ },
        { id := 2, type := .descending, topCard := ⟨"c40a", 40⟩ },
        { id := 3, type := .descending, topCard := ⟨"c40b", 40⟩ } ],
    drawPile := [⟨"c45", 45⟩],
    currentPlayerIndex := 0, gamePhase := .playing, cardsPlayedThisTurn := 4,
    statistics := { turns := 0, startedAtMs := 0, endedAtMs := none,
                    players := [("p1", emptyPlayerStats)] },
    nasCheat := { enabledPlayerIds := ["p1"], usedThisTurnByPlayerId := [("p1", false)] },
    settings := demoSettings, isSolitaire := true }

/-! ## Claim C10: the server rate limiter (`apps/server/src/index.ts`) -/

/-- `RateLimitRule` from `index.ts`. -/
structure RateLimitRule where
  limit : Nat
  windowMs : Int
deriving DecidableEq

/-- `eventRateLimits['game:join']`. -/
def joinRateLimit : RateLimitRule := { limit := 10, windowMs := 10000 }

/-- `eventRateLimits['game:lookup']`. -/
def lookupRateLimit : RateLimitRule := { limit := 20, windowMs := 10000 }

/-- `eventRateLimits['game:playCard']`. -/
def playCardRateLimit : RateLimitRule := { limit := 60, windowMs := 10000 }

/-- One per-connection, per-event bucket of the limiter. -/
structure RateBucket where
  windowStartMs : Int
  count : Nat
deriving DecidableEq

/-- `passesRateLimit(socketId, eventName)` from `index.ts`, for one
bucket: returns the decision and the updated bucket (`now` stands for
`Date.now()`). -/
def passesRateLimit (rule : RateLimitRule) (bucket : Option RateBucket) (now : Int) :
    Bool × RateBucket :=
  match bucket with
  | none => (true, { windowStartMs := now, count := 1 })
  | some b =>
    if now - b.windowStartMs ≥ rule.windowMs then
      (true, { windowStartMs := now, count := 1 })
    else if b.count ≥ rule.limit then (false, b)
    else (true, { windowStartMs := b.windowStartMs, count := b.count + 1 })

/-- Feed a sequence of event timestamps (one connection, one event type)
through the limiter; returns the accepted timestamps in order and the
final bucket. -/
def runRateLimiter (rule : RateLimitRule) :
    Option RateBucket → List Int → List Int × Option RateBucket
  | bucket, [] => ([], bucket)
  | bucket, now :: rest =>
    let step := passesRateLimit rule bucket now
    let result := runRateLimiter rule (some step.2) rest
    (if step.1 then now :: result.1 else result.1, result.2)

/-- Acknowledgment outcome of a rate-limited socket handler. -/
inductive HandlerOutcome where
  | rateLimited
  | delegated
deriving DecidableEq

/-- The shape shared by the `game:join`, `game:lookup` and
`game:playCard` handlers: when `passesRateLimit` refuses, the handler
acknowledges a rate-limit failure and returns before touching the
manager or engine (the middle component records whether the manager was
invoked). -/
def handleRateLimitedEvent (rule : RateLimitRule) (bucket : Option RateBucket)
    (now : Int) : HandlerOutcome × Bool × RateBucket :=
  let step := passesRateLimit rule bucket now
  if step.1 then (.delegated, true, step.2) else (.rateLimited, false, step.2)

/-- Twenty `game:join` events from one connection: ten accepted in the
fixed window starting at 0, then a reset at 10000 accepts ten more —
nineteen accepted timestamps lie inside the single sliding 10-second
window [5000, 15000). -/
def joinFloodEvents : List Int :=
  [0, 9999, 9999, 9999, 9999, 9999, 9999, 9999, 9999, 9999,
   10000, 10000, 10000, 10000, 10000, 10000, 10000, 10000, 10000, 10000]

theorem dfsCanPlay_iff_chainedPlays (autoRefillHand : Bool) :
    ∀ (n : Nat) (hand : List Card) (piles : List FoundationPile) (draw : List Card),
      dfsCanPlay autoRefillHand n hand piles draw = true ↔
        ChainedPlays autoRefillHand n hand piles draw := by
  intro n
  induction n with
  | zero =>
    intro hand piles draw
    simp only [dfsCanPlay, true_iff]
    exact ChainedPlays.nil hand piles draw
  | succ n ih =>
    intro hand piles draw
    constructor
    · intro h
      simp only [dfsCanPlay, List.any_eq_true, List.mem_range] at h
      obtain ⟨ci, hci, pi, hpi, hbody⟩ := h
      cases hc : hand[ci]? with
      | none => rw [hc] at hbody; cases hp : piles[pi]? <;> rw [hp] at hbody <;> simp at hbody
      | some card =>
        cases hp : piles[pi]? with
        | none => rw [hc, hp] at hbody; simp at hbody
        | some pile =>
          rw [hc, hp] at hbody
          rw [Bool.and_eq_true] at hbody
          exact ChainedPlays.step ci pi card pile hc hp hbody.1 ((ih _ _ _).mp hbody.2)
    · intro h
      cases h with
      | step ci pi card pile hc hp hv ht =>
        have hci : ci < hand.length := by
          by_contra hge
          rw [List.getElem?_eq_none (Nat.le_of_not_lt hge)] at hc
          exact Option.noConfusion hc
        have hpi : pi < piles.length := by
          by_contra hge
          rw [List.getElem?_eq_none (Nat.le_of_not_lt hge)] at hp
          exact Option.noConfusion hp
        simp only [dfsCanPlay, List.any_eq_true, List.mem_range]
        refine ⟨ci, hci, pi, hpi, ?_⟩
        rw [hc, hp, Bool.and_eq_true]
        exact ⟨hv, (ih _ _ _).mpr ht⟩

/-- Claim C9: `canPlayerSatisfyRequiredPlays(hand, pileTops, drawPile,
required, autoRefill)` returns `true` iff there exists a sequence of
`required` chained legal plays (each play takes a card currently in the
hand that `isValidPlay` accepts on some pile, replaces that pile's top,
and — when auto-refill is active and the draw pile non-empty — moves one
card from the front of the draw pile into the hand before the next play),
and returns `true` trivially when `required = 0`. -/
theorem canPlayerSatisfyRequiredPlays_iff_chainedPlays
    (hand : List Card) (piles : List FoundationPile) (draw : List Card)
    (required : Nat) (autoRefillHand : Bool) :
    canPlayerSatisfyRequiredPlays hand piles draw required autoRefillHand = true ↔
      ChainedPlays autoRefillHand required hand piles draw := by
  cases required with
  | zero =>
    simp only [canPlayerSatisfyRequiredPlays, Nat.le_refl, if_pos, true_iff]
    exact ChainedPlays.nil hand piles draw
  | succ n =>
    simp only [canPlayerSatisfyRequiredPlays, Nat.not_succ_le_zero, if_neg,
      Nat.le_zero, Nat.succ_ne_zero]
    exact dfsCanPlay_iff_chainedPlays autoRefillHand (n + 1) hand piles draw

/-! ## Claim C1: the rule validator -/

/-- Claim C1: for every card and pile, `isValidPlay` accepts exactly the
plays the spec describes (strictly monotone in the pile's direction, or
exactly 10 in the wrong direction); on an ascending pile showing 67, with
values in the configured range up to 99, exactly 68..99 and 57 are legal
and 58 is illegal. -/
theorem isValidPlay_characterization :
    (∀ (card : Card) (pile : FoundationPile),
      isValidPlay card pile = true ↔
        ((pile.type = .ascending ∧
            (pile.topCard.value < card.value ∨ card.value = pile.topCard.value - 10)) ∨
         (pile.type = .descending ∧
            (card.value < pile.topCard.value ∨ card.value = pile.topCard.value + 10)))) ∧
    (∀ v : Int, 2 ≤ v → v ≤ 99 →
      (isValidPlay ⟨"c", v⟩ ⟨0, .ascending, ⟨"t", 67⟩⟩ = true ↔
        ((68 ≤ v ∧ v ≤ 99) ∨ v = 57))) ∧
    isValidPlay ⟨"c", 58⟩ ⟨0, .ascending, ⟨"t", 67⟩⟩ = false := by
  refine ⟨?_, ?_, by decide⟩
  · intro card pile
    obtain ⟨pid, ptype, ptop⟩ := pile
    cases ptype <;> simp [isValidPlay]
  · intro v h2 h99
    simp only [isValidPlay, Bool.or_eq_true, decide_eq_true_eq]
    omega

/-- Witness for C1 at the concrete input 57: the skip-by-10 play on an
ascending pile showing 67 is legal. -/
theorem isValidPlay_characterization_witness :
    isValidPlay ⟨"c", 57⟩ ⟨0, .ascending, ⟨"t", 67⟩⟩ = true :=
  (isValidPlay_characterization.2.1 57 (by decide) (by decide)).mpr (Or.inr rfl)

/-! ## Preservation lemmas for the evaluation pipeline -/

theorem ensureStatsForPlayers_gamePhase (s : GameState) :
    (ensureStatsForPlayers s).gamePhase = s.gamePhase := rfl

theorem ensureStatsForPlayers_endedAtMs (s : GameState) :
    (ensureStatsForPlayers s).statistics.endedAtMs = s.statistics.endedAtMs := rfl

theorem evaluateLossForCurrentPlayer_not_playing (now : Int) (s : GameState)
    (h : s.gamePhase ≠ .playing) : evaluateLossForCurrentPlayer now s = s := by
  unfold evaluateLossForCurrentPlayer
  rw [if_pos h]

theorem evaluateWin_not_empty (now : Int) (s : GameState)
    (h : allHandsEmpty s.players = false) : evaluateWin now s = s := by
  unfold evaluateWin
  rw [h]
  rfl

/-- Every successful `createStartedGameState` goes through the
win/loss/statistics pipeline. -/
theorem createStartedGameState_ok_shape (now : Int) (params : CreateStartedGameParams)
    (s' : GameState) (h : createStartedGameState now params = .ok s') :
    ∃ mid, s' = finalizeState now mid := by
  unfold createStartedGameState at h
  split at h
  · exact absurd h (by simp)
  split at h
  · exact absurd h (by simp)
  split at h
  · exact absurd h (by simp)
  split at h
  · exact absurd h (by simp)
  split at h
  · exact absurd h (by simp)
  exact ⟨_, (Except.ok.inj h).symm⟩

/-- Every successful `playCard` goes through the pipeline. -/
theorem playCard_ok_shape (now : Int) (s : GameState) (playerId cardId : String)
    (pileId : Int) (s' : GameState) (h : playCard now s playerId cardId pileId = .ok s') :
    ∃ mid, s' = finalizeState now mid := by
  unfold playCard at h
  cases hc : playCardCore s playerId cardId pileId with
  | error e => rw [hc] at h; exact absurd h (by simp [Except.map])
  | ok mid =>
    rw [hc] at h
    simp only [Except.map] at h
    exact ⟨mid, (Except.ok.inj h).symm⟩

/-- Every successful multiplayer `endTurn` goes through the pipeline. -/
theorem endTurn_ok_shape (now : Int) (s : GameState) (playerId : String)
    (s' : GameState) (hsol : s.isSolitaire = false)
    (h : endTurn now s playerId = .ok s') : ∃ mid, s' = finalizeState now mid := by
  unfold endTurn at h
  split at h
  · exact absurd h (by simp)
  split at h
  · simp_all
  split at h
  · exact absurd h (by simp)
  split at h
  · exact absurd h (by simp)
  split at h
  · exact absurd h (by simp)
  exact ⟨_, (Except.ok.inj h).symm⟩

/-! ## Claim C2: win/loss re-evaluation order -/

/-- Claim C2: after every successful start, playCard, or (multiplayer)
endTurn, the state is passed through the win-then-loss evaluation
pipeline; the pipeline turns the phase to `won` whenever every hand is
empty (recording the end timestamp idempotently), and otherwise, from a
`playing` state whose current player has no legal play under the current
auto-refill policy, turns it to `lost` — immediately in solitaire, and in
multiplayer only while `cardsPlayedThisTurn` is below the required count;
a current player who has met the minimum leaves the phase `playing`. -/
theorem finalize_win_loss_order :
    (∀ (now : Int) (s : GameState),
      (allHandsEmpty s.players = true →
        (finalizeState now s).gamePhase = .won ∧
        (finalizeState now s).statistics.endedAtMs =
          some (s.statistics.endedAtMs.getD now)) ∧
      (allHandsEmpty s.players = false → s.gamePhase = .playing →
        ∀ cp, s.players[s.currentPlayerIndex]? = some cp →
          (canPlayerSatisfyRequiredPlays cp.hand s.foundationPiles s.drawPile 1
              (lossSearchAutoRefill s) = true →
            (finalizeState now s).gamePhase = .playing) ∧
          (canPlayerSatisfyRequiredPlays cp.hand s.foundationPiles s.drawPile 1
              (lossSearchAutoRefill s) = false →
            (s.isSolitaire = true →
              (finalizeState now s).gamePhase = .lost ∧
              (finalizeState now s).statistics.endedAtMs =
                some (s.statistics.endedAtMs.getD now)) ∧
            (s.isSolitaire = false →
              (s.cardsPlayedThisTurn <
                  requiredCardsForTurn s.settings.minCardsPerTurn s.drawPile.length →
                (finalizeState now s).gamePhase = .lost) ∧
              (requiredCardsForTurn s.settings.minCardsPerTurn s.drawPile.length ≤
                  s.cardsPlayedThisTurn →
                (finalizeState now s).gamePhase = .playing))))) ∧
    (∀ now params s', createStartedGameState now params = .ok s' →
      ∃ mid, s' = finalizeState now mid) ∧
    (∀ now s playerId cardId pileId s',
      playCard now s playerId cardId pileId = .ok s' →
        ∃ mid, s' = finalizeState now mid) ∧
    (∀ now s playerId s', s.isSolitaire = false →
      endTurn now s playerId = .ok s' → ∃ mid, s' = finalizeState now mid) := by
  refine ⟨?_, ?_, ?_, ?_⟩
  · intro now s
    constructor
    · intro hempty
      unfold finalizeState
      unfold evaluateWin
      rw [hempty]
      simp only [if_true]
      rw [evaluateLossForCurrentPlayer_not_playing now _ (by simp)]
      exact ⟨rfl, rfl⟩
    · intro hempty hplaying cp hcp
      unfold finalizeState
      rw [evaluateWin_not_empty now s hempty]
      by_cases hsol : s.isSolitaire = true
      · simp only [lossSearchAutoRefill, hsol, if_true]
        constructor
        · intro hcan
          simp [evaluateLossForCurrentPlayer, hplaying, hcp, hsol, hcan,
            ensureStatsForPlayers_gamePhase]
        · intro hcan
          refine ⟨fun _ => ?_, fun hns => by simp [hsol] at hns⟩
          constructor
          · simp [evaluateLossForCurrentPlayer, hplaying, hcp, hsol, hcan,
              ensureStatsForPlayers_gamePhase]
          · simp [evaluateLossForCurrentPlayer, hplaying, hcp, hsol, hcan,
              ensureStatsForPlayers_endedAtMs]
      · have hsolF : s.isSolitaire = false := by
          cases hb : s.isSolitaire
          · rfl
          · exact absurd hb hsol
        simp only [lossSearchAutoRefill, hsolF, Bool.false_eq_true, if_false]
        constructor
        · intro hcan
          simp [evaluateLossForCurrentPlayer, hplaying, hcp, hsolF, hcan,
            ensureStatsForPlayers_gamePhase]
        · intro hcan
          refine ⟨fun hs => absurd hs (by simp [hsolF]), fun _ => ⟨?_, ?_⟩⟩
          · intro hlt
            simp only [evaluateLossForCurrentPlayer, hplaying, hcp, hsolF, hcan,
              Bool.false_eq_true, if_false, ne_eq, not_true_eq_false, ite_false,
              Bool.true_eq_false]
            rw [if_neg (by omega)]
            rfl
          · intro hge
            simp only [evaluateLossForCurrentPlayer, hplaying, hcp, hsolF, hcan,
              Bool.false_eq_true, if_false, ne_eq, not_true_eq_false, ite_false,
              Bool.true_eq_false]
            rw [if_pos (by omega)]
            rw [ensureStatsForPlayers_gamePhase, hplaying]
  · exact fun now params s' h => createStartedGameState_ok_shape now params s' h
  · exact fun now s playerId cardId pileId s' h =>
      playCard_ok_shape now s playerId cardId pileId s' h
  · exact fun now s playerId s' hsol h => endTurn_ok_shape now s playerId s' hsol h

/-- Witness for C2 at a concrete state: one player, empty hand — the
pipeline produces `won` and records the end timestamp. -/
theorem finalize_win_loss_order_witness :
    allHandsEmpty demoWonState.players = true ∧
    (finalizeState 5 demoWonState).gamePhase = .won ∧
    (finalizeState 5 demoWonState).statistics.endedAtMs = some 5 := by
  refine ⟨rfl, ?_⟩
  have h := (finalize_win_loss_order.1 5 demoWonState).1 rfl
  exact h

/-! ## Claim C3: rejected actions leave the state unchanged -/

/-- Claim C3: every engine operation that fails yields a typed
`EngineError` (with a code from the operation's failure set), and a
caller that keeps its previous state on error — as the room manager
does — observes a state deep-equal to the input after any rejection. -/
theorem rejected_actions_leave_state_unchanged :
    (∀ now s playerId cardId pileId e,
      playCard now s playerId cardId pileId = .error e →
        recoverState s (playCard now s playerId cardId pileId) = s ∧
        (e.code = .GAME_NOT_PLAYING ∨ e.code = .NOT_PLAYER_TURN ∨
         e.code = .CARD_NOT_FOUND ∨ e.code = .PILE_NOT_FOUND ∨
         e.code = .INVALID_PLAY)) ∧
    (∀ now s playerId e, endTurn now s playerId = .error e →
      recoverState s (endTurn now s playerId) = s ∧
      (e.code = .GAME_NOT_PLAYING ∨ e.code = .NOT_PLAYER_TURN ∨
       e.code = .MIN_CARDS_NOT_MET)) ∧
    (∀ s playerId cardId insertAt e, useNasCheat s playerId cardId insertAt = .error e →
      recoverState s (useNasCheat s playerId cardId insertAt) = s ∧
      (e.code = .GAME_NOT_PLAYING ∨ e.code = .NOT_PLAYER_TURN ∨
       e.code = .CARD_NOT_FOUND ∨ e.code = .INVALID_PLAY)) ∧
    (∀ now params e, createStartedGameState now params = .error e →
      e.code = .SOLITAIRE_PLAYER_COUNT_INVALID ∨ e.code = .SOLITAIRE_SETTINGS_INVALID ∨
      e.code = .INVALID_PLAYER_COUNT ∨ e.code = .HOST_NOT_IN_PLAYERS) := by
  refine ⟨?_, ?_, ?_, ?_⟩
  · intro now s playerId cardId pileId e h
    refine ⟨by rw [h]; rfl, ?_⟩
    unfold playCard at h
    cases hc : playCardCore s playerId cardId pileId with
    | ok mid => rw [hc] at h; simp [Except.map] at h
    | error e0 =>
      rw [hc] at h
      simp only [Except.map, Except.error.injEq] at h
      subst h
      unfold playCardCore at hc
      repeat' split at hc
      all_goals first
        | (injection hc with h1; subst h1; simp)
        | exact absurd hc (by simp)
  · intro now s playerId e h
    refine ⟨by rw [h]; rfl, ?_⟩
    unfold endTurn at h
    repeat' split at h
    all_goals first
      | (injection h with h1; subst h1; simp)
      | exact absurd h (by simp)
  · intro s playerId cardId insertAt e h
    refine ⟨by rw [h]; rfl, ?_⟩
    unfold useNasCheat at h
    repeat' split at h
    all_goals first
      | (injection h with h1; subst h1; simp)
      | exact absurd h (by simp)
  · intro now params e h
    unfold createStartedGameState at h
    repeat' split at h
    all_goals first
      | (injection h with h1; subst h1; simp)
      | exact absurd h (by simp)

/-- Witness for C3: a `playCard` naming a card that is not in hand is
rejected with `CARD_NOT_FOUND`, and the caller's state is unchanged. -/
theorem rejected_actions_leave_state_unchanged_witness :
    recoverState demoWonState (playCard 0 demoWonState "p1" "nope" 0) = demoWonState ∧
    ((⟨.CARD_NOT_FOUND, "Card does not exist in player hand"⟩ : EngineError).code =
        .GAME_NOT_PLAYING ∨
     (⟨.CARD_NOT_FOUND, "Card does not exist in player hand"⟩ : EngineError).code =
        .NOT_PLAYER_TURN ∨
     (⟨.CARD_NOT_FOUND, "Card does not exist in player hand"⟩ : EngineError).code =
        .CARD_NOT_FOUND ∨
     (⟨.CARD_NOT_FOUND, "Card does not exist in player hand"⟩ : EngineError).code =
        .PILE_NOT_FOUND ∨
     (⟨.CARD_NOT_FOUND, "Card does not exist in player hand"⟩ : EngineError).code =
        .INVALID_PLAY) :=
  rejected_actions_leave_state_unchanged.1 0 demoWonState "p1" "nope" 0
    ⟨.CARD_NOT_FOUND, "Card does not exist in player hand"⟩ (by rfl)

theorem lossEvaluationInForce_ensureStats (t : GameState) :
    lossEvaluationInForce (ensureStatsForPlayers t) ↔ lossEvaluationInForce t :=
  Iff.rfl

/-- Any state that has just been passed through
`evaluateLossForCurrentPlayer` satisfies the §4.4 invariant. -/
theorem evaluateLoss_establishes_invariant (now : Int) (u : GameState) :
    lossEvaluationInForce (evaluateLossForCurrentPlayer now u) := by
  by_cases hphase : u.gamePhase = .playing
  · cases hcp : u.players[u.currentPlayerIndex]? with
    | none =>
      unfold evaluateLossForCurrentPlayer
      rw [if_neg (by simp [hphase]), hcp]
      dsimp only
      intro _ cp hcp'
      rw [hcp] at hcp'
      exact absurd hcp' (by simp)
    | some currentPlayer =>
      by_cases hsol : u.isSolitaire = true
      · by_cases hcan : canPlayerSatisfyRequiredPlays currentPlayer.hand
            u.foundationPiles u.drawPile 1 true = true
        · unfold evaluateLossForCurrentPlayer
          rw [if_neg (by simp [hphase]), hcp]
          dsimp only
          rw [if_pos hsol, if_pos hcan]
          intro _ cp hcp'
          rw [hcp] at hcp'
          cases Option.some.inj hcp'
          left
          simpa [lossSearchAutoRefill, hsol] using hcan
        · unfold evaluateLossForCurrentPlayer
          rw [if_neg (by simp [hphase]), hcp]
          dsimp only
          rw [if_pos hsol, if_neg hcan]
          intro hph
          exact absurd hph (by simp)
      · by_cases hcan : canPlayerSatisfyRequiredPlays currentPlayer.hand
            u.foundationPiles u.drawPile 1 u.settings.autoRefillHand = true
        · unfold evaluateLossForCurrentPlayer
          rw [if_neg (by simp [hphase]), hcp]
          dsimp only
          rw [if_neg hsol, if_pos hcan]
          intro _ cp hcp'
          rw [hcp] at hcp'
          cases Option.some.inj hcp'
          left
          simpa [lossSearchAutoRefill, hsol] using hcan
        · by_cases hend : u.cardsPlayedThisTurn ≥
              requiredCardsForTurn u.settings.minCardsPerTurn u.drawPile.length
          · unfold evaluateLossForCurrentPlayer
            rw [if_neg (by simp [hphase]), hcp]
            dsimp only
            rw [if_neg hsol, if_neg hcan, if_pos hend]
            intro _ cp hcp'
            right
            refine ⟨by cases hb : u.isSolitaire; rfl; exact absurd hb hsol, hend⟩
          · unfold evaluateLossForCurrentPlayer
            rw [if_neg (by simp [hphase]), hcp]
            dsimp only
            rw [if_neg hsol, if_neg hcan, if_neg hend]
            intro hph
            exact absurd hph (by simp)
  · rw [evaluateLossForCurrentPlayer_not_playing now u hphase]
    intro hph
    exact absurd hph hphase

theorem finalizeState_establishes_invariant (now : Int) (mid : GameState) :
    lossEvaluationInForce (finalizeState now mid) := by
  unfold finalizeState
  rw [lossEvaluationInForce_ensureStats]
  exact evaluateLoss_establishes_invariant now (evaluateWin now mid)

/-- Claim C7 (amended): the §4.4 win/loss evaluation is in force after
every successful `createStartedGameState`, `playCard` and multiplayer
`endTurn` — those operations end in the evaluation pipeline — but
`useNasCheat` performs no re-evaluation (see the counterexample). -/
theorem loss_evaluation_in_force_after_evaluating_ops :
    (∀ now params s', createStartedGameState now params = .ok s' →
      lossEvaluationInForce s') ∧
    (∀ now s playerId cardId pileId s',
      playCard now s playerId cardId pileId = .ok s' → lossEvaluationInForce s') ∧
    (∀ now s playerId s', s.isSolitaire = false → endTurn now s playerId = .ok s' →
      lossEvaluationInForce s') := by
  refine ⟨?_, ?_, ?_⟩
  · intro now params s' h
    obtain ⟨mid, rfl⟩ := createStartedGameState_ok_shape now params s' h
    exact finalizeState_establishes_invariant now mid
  · intro now s playerId cardId pileId s' h
    obtain ⟨mid, rfl⟩ := playCard_ok_shape now s playerId cardId pileId s' h
    exact finalizeState_establishes_invariant now mid
  · intro now s playerId s' hsol h
    obtain ⟨mid, rfl⟩ := endTurn_ok_shape now s playerId s' hsol h
    exact finalizeState_establishes_invariant now mid

/-- Witness for C7 (amended): the freshly started demonstration game
satisfies the §4.4 invariant. -/
theorem loss_evaluation_in_force_witness : lossEvaluationInForce demoStart :=
  loss_evaluation_in_force_after_evaluating_ops.1 0 demoParams demoStart (by rfl)

/-! ## Field preservation through the evaluation pipeline -/

theorem evaluateWin_preserves (now : Int) (t : GameState) :
    (evaluateWin now t).players = t.players ∧
    (evaluateWin now t).drawPile = t.drawPile ∧
    (evaluateWin now t).foundationPiles = t.foundationPiles ∧
    (evaluateWin now t).currentPlayerIndex = t.currentPlayerIndex ∧
    (evaluateWin now t).cardsPlayedThisTurn = t.cardsPlayedThisTurn ∧
    (evaluateWin now t).statistics.turns = t.statistics.turns ∧
    (evaluateWin now t).statistics.players = t.statistics.players ∧
    (evaluateWin now t).nasCheat = t.nasCheat ∧
    (evaluateWin now t).settings = t.settings ∧
    (evaluateWin now t).isSolitaire = t.isSolitaire := by
  unfold evaluateWin
  split
  all_goals exact ⟨rfl, rfl, rfl, rfl, rfl, rfl, rfl, rfl, rfl, rfl⟩

theorem evaluateLoss_preserves (now : Int) (t : GameState) :
    (evaluateLossForCurrentPlayer now t).players = t.players ∧
    (evaluateLossForCurrentPlayer now t).drawPile = t.drawPile ∧
    (evaluateLossForCurrentPlayer now t).foundationPiles = t.foundationPiles ∧
    (evaluateLossForCurrentPlayer now t).currentPlayerIndex = t.currentPlayerIndex ∧
    (evaluateLossForCurrentPlayer now t).cardsPlayedThisTurn = t.cardsPlayedThisTurn ∧
    (evaluateLossForCurrentPlayer now t).statistics.turns = t.statistics.turns ∧
    (evaluateLossForCurrentPlayer now t).statistics.players = t.statistics.players ∧
    (evaluateLossForCurrentPlayer now t).nasCheat = t.nasCheat ∧
    (evaluateLossForCurrentPlayer now t).settings = t.settings ∧
    (evaluateLossForCurrentPlayer now t).isSolitaire = t.isSolitaire := by
  unfold evaluateLossForCurrentPlayer
  dsimp only
  repeat' split
  all_goals exact ⟨rfl, rfl, rfl, rfl, rfl, rfl, rfl, rfl, rfl, rfl⟩

theorem ensureStats_preserves (t : GameState) :
    (ensureStatsForPlayers t).players = t.players ∧
    (ensureStatsForPlayers t).drawPile = t.drawPile ∧
    (ensureStatsForPlayers t).foundationPiles = t.foundationPiles ∧
    (ensureStatsForPlayers t).currentPlayerIndex = t.currentPlayerIndex ∧
    (ensureStatsForPlayers t).cardsPlayedThisTurn = t.cardsPlayedThisTurn ∧
    (ensureStatsForPlayers t).statistics.turns = t.statistics.turns ∧
    (ensureStatsForPlayers t).nasCheat = t.nasCheat ∧
    (ensureStatsForPlayers t).settings = t.settings ∧
    (ensureStatsForPlayers t).isSolitaire = t.isSolitaire :=
  ⟨rfl, rfl, rfl, rfl, rfl, rfl, rfl, rfl, rfl⟩

theorem finalizeState_preserves (now : Int) (t : GameState) :
    (finalizeState now t).players = t.players ∧
    (finalizeState now t).drawPile = t.drawPile ∧
    (finalizeState now t).foundationPiles = t.foundationPiles ∧
    (finalizeState now t).currentPlayerIndex = t.currentPlayerIndex ∧
    (finalizeState now t).cardsPlayedThisTurn = t.cardsPlayedThisTurn ∧
    (finalizeState now t).statistics.turns = t.statistics.turns ∧
    (finalizeState now t).nasCheat = t.nasCheat ∧
    (finalizeState now t).settings = t.settings ∧
    (finalizeState now t).isSolitaire = t.isSolitaire := by
  unfold finalizeState
  obtain ⟨w1, w2, w3, w4, w5, w6, w7, w8, w9, w10⟩ := evaluateWin_preserves now t
  obtain ⟨l1, l2, l3, l4, l5, l6, l7, l8, l9, l10⟩ :=
    evaluateLoss_preserves now (evaluateWin now t)
  obtain ⟨e1, e2, e3, e4, e5, e6, e8, e9, e10⟩ :=
    ensureStats_preserves (evaluateLossForCurrentPlayer now (evaluateWin now t))
  exact ⟨by rw [e1, l1, w1], by rw [e2, l2, w2], by rw [e3, l3, w3],
    by rw [e4, l4, w4], by rw [e5, l5, w5], by rw [e6, l6, w6],
    by rw [e8, l8, w8], by rw [e9, l9, w9], by rw [e10, l10, w10]⟩

/-- An association-list lookup that succeeds on the left part is
unaffected by appending entries. -/
theorem lookup_append_of_isSome {β : Type} (l₁ l₂ : List (String × β)) (k : String)
    (h : (l₁.lookup k).isSome = true) : (l₁ ++ l₂).lookup k = l₁.lookup k := by
  induction l₁ with
  | nil => simp at h
  | cons q qs ih =>
    cases q with
    | mk a b =>
      simp only [List.cons_append, List.lookup] at h ⊢
      cases hk : (k == a) with
      | true => rfl
      | false =>
        rw [hk] at h
        exact ih h

/-- The per-key statistics lookup survives `ensureStatsForPlayers` for a
key that is already present. -/
theorem ensureStats_foldl_lookup (pid : String) :
    ∀ (ps : List Player) (acc : List (String × PlayerStatistics)),
      (acc.lookup pid).isSome = true →
      ((ps.foldl
        (fun acc player =>
          if (acc.lookup player.id).isSome then acc
          else acc ++ [(player.id, emptyPlayerStats)]) acc).lookup pid) =
        acc.lookup pid := by
  intro ps
  induction ps with
  | nil => intro acc _; rfl
  | cons p rest ih =>
    intro acc hsome
    simp only [List.foldl_cons]
    by_cases hp : ((acc.lookup p.id).isSome = true)
    · rw [if_pos hp]
      exact ih acc hsome
    · rw [if_neg hp]
      have happ := lookup_append_of_isSome acc [(p.id, emptyPlayerStats)] pid hsome
      rw [ih (acc ++ [(p.id, emptyPlayerStats)]) (by rw [happ]; exact hsome), happ]

theorem ensureStats_lookup (t : GameState) (pid : String)
    (h : (t.statistics.players.lookup pid).isSome = true) :
    (ensureStatsForPlayers t).statistics.players.lookup pid =
      t.statistics.players.lookup pid :=
  ensureStats_foldl_lookup pid t.players t.statistics.players h

/-! ## Characterising `nextPlayerIndexWithCards` -/

theorem nextIndexLoop_characterization (players : List Player) (fromIndex : Nat) :
    ∀ offsets : List Nat,
      (nextIndexLoop players fromIndex offsets = fromIndex ∧
        ∀ o ∈ offsets, ∀ p, players[(fromIndex + o) % players.length]? = some p →
          p.hand = []) ∨
      (∃ (t k : Nat), offsets[t]? = some k ∧
        (∃ p, players[(fromIndex + k) % players.length]? = some p ∧ p.hand ≠ []) ∧
        nextIndexLoop players fromIndex offsets = (fromIndex + k) % players.length ∧
        ∀ (t' o : Nat), t' < t → offsets[t']? = some o →
          ∀ p, players[(fromIndex + o) % players.length]? = some p → p.hand = []) := by
  intro offsets
  induction offsets with
  | nil => exact Or.inl ⟨rfl, by simp⟩
  | cons o rest ih =>
    cases hp : players[(fromIndex + o) % players.length]? with
    | none =>
      rcases ih with ⟨hres, hfail⟩ | ⟨t, k, hk, hsucc, hres, hmin⟩
      · refine Or.inl ⟨?_, ?_⟩
        · simp only [nextIndexLoop, hp]
          exact hres
        · intro o' ho' p hp'
          rcases List.mem_cons.mp ho' with rfl | ho'
          · rw [hp] at hp'; exact absurd hp' (by simp)
          · exact hfail o' ho' p hp'
      · refine Or.inr ⟨t + 1, k, by simpa using hk, hsucc, ?_, ?_⟩
        · simp only [nextIndexLoop, hp]
          exact hres
        · intro t' o' ht' ho'
          cases t' with
          | zero =>
            intro p hp'
            simp only [List.getElem?_cons_zero] at ho'
            cases Option.some.inj ho'
            rw [hp] at hp'
            exact absurd hp' (by simp)
          | succ t'' =>
            simp only [List.getElem?_cons_succ] at ho'
            exact hmin t'' o' (by omega) ho'
    | some p =>
      by_cases hhand : p.hand.length > 0
      · refine Or.inr ⟨0, o, by simp, ⟨p, hp, by intro hnil; rw [hnil] at hhand; simp at hhand⟩, ?_, ?_⟩
        · simp only [nextIndexLoop, hp]
          rw [if_pos hhand]
        · intro t' o' ht' _
          omega
      · have hnil : p.hand = [] := List.length_eq_zero.mp (by omega)
        rcases ih with ⟨hres, hfail⟩ | ⟨t, k, hk, hsucc, hres, hmin⟩
        · refine Or.inl ⟨?_, ?_⟩
          · simp only [nextIndexLoop, hp]
            rw [if_neg hhand]
            exact hres
          · intro o' ho' q hq
            rcases List.mem_cons.mp ho' with rfl | ho'
            · rw [hp] at hq; cases Option.some.inj hq; exact hnil
            · exact hfail o' ho' q hq
        · refine Or.inr ⟨t + 1, k, by simpa using hk, hsucc, ?_, ?_⟩
          · simp only [nextIndexLoop, hp]
            rw [if_neg hhand]
            exact hres
          · intro t' o' ht' ho'
            cases t' with
            | zero =>
              intro q hq
              simp only [List.getElem?_cons_zero] at ho'
              cases Option.some.inj ho'
              rw [hp] at hq
              cases Option.some.inj hq
              exact hnil
            | succ t'' =>
              simp only [List.getElem?_cons_succ] at ho'
              exact hmin t'' o' (by omega) ho'

/-- For `m < len` there is an offset `o ∈ [1, len]` with
`(i + o) % len = m` — the wrap-around search reaches every index. -/
theorem exists_offset_mod (i m len : Nat) (hm : m < len) :
    ∃ o, 1 ≤ o ∧ o ≤ len ∧ (i + o) % len = m := by
  have hlen : 0 < len := Nat.lt_of_le_of_lt (Nat.zero_le m) hm
  have hr : i % len < len := Nat.mod_lt i hlen
  have hdiv := Nat.div_add_mod i len
  by_cases hcase : i % len < m
  · refine ⟨m - i % len, by omega, by omega, ?_⟩
    have h1 : i + (m - i % len) = len * (i / len) + m := by omega
    rw [h1, Nat.mul_add_mod]
    exact Nat.mod_eq_of_lt hm
  · refine ⟨len - i % len + m, by omega, by omega, ?_⟩
    have h1 : i + (len - i % len + m) = len * (i / len) + (len + m) := by omega
    rw [h1, Nat.mul_add_mod, Nat.add_mod_left]
    exact Nat.mod_eq_of_lt hm

/-- `nextPlayerIndexWithCards` characterised: identity when every hand
is empty; otherwise it advances by the least wrap-around offset in
`[1, players.length]` reaching a player holding cards. -/
theorem nextPlayerIndexWithCards_spec (players : List Player) (fromIndex : Nat) :
    (allHandsEmpty players = true → nextPlayerIndexWithCards players fromIndex = fromIndex) ∧
    (allHandsEmpty players = false →
      ∃ k, 1 ≤ k ∧ k ≤ players.length ∧
        nextPlayerIndexWithCards players fromIndex = (fromIndex + k) % players.length ∧
        (∃ p, players[(fromIndex + k) % players.length]? = some p ∧ p.hand ≠ []) ∧
        ∀ j, 1 ≤ j → j < k →
          ∀ p, players[(fromIndex + j) % players.length]? = some p → p.hand = []) := by
  constructor
  · intro h
    unfold nextPlayerIndexWithCards
    rw [h]
    rfl
  · intro h
    have hne : ∃ q ∈ players, q.hand ≠ [] := by
      by_contra hall
      push_neg at hall
      have : allHandsEmpty players = true := by
        unfold allHandsEmpty
        rw [List.all_eq_true]
        intro p hp
        have := hall p hp
        simp [List.length_eq_zero, this]
      rw [this] at h
      exact Bool.noConfusion h
    obtain ⟨q, hqmem, hqhand⟩ := hne
    obtain ⟨m, hm, hqm⟩ := List.getElem_of_mem hqmem
    obtain ⟨o, ho1, holen, homod⟩ := exists_offset_mod fromIndex m players.length hm
    have hooff : ((List.range players.length).map (· + 1))[o - 1]? = some o := by
      rw [List.getElem?_map, List.getElem?_range (by omega)]
      simp only [Option.map_some']
      congr 1
      omega
    unfold nextPlayerIndexWithCards
    rw [h]
    rw [if_neg (by simp)]
    rcases nextIndexLoop_characterization players fromIndex
        ((List.range players.length).map (· + 1)) with ⟨hres, hfail⟩ | hright
    · exfalso
      have homem : o ∈ (List.range players.length).map (· + 1) := by
        rw [List.mem_map]
        exact ⟨o - 1, List.mem_range.mpr (by omega), by omega⟩
      have := hfail o homem q (by rw [homod, List.getElem?_eq_getElem hm, hqm])
      exact hqhand this
    · obtain ⟨t, k, hk, hsucc, hres, hmin⟩ := hright
      have htlen : t < players.length := by
        by_contra hge
        rw [List.getElem?_eq_none (by simpa using Nat.le_of_not_lt hge)] at hk
        exact Option.noConfusion hk
      have hkval : k = t + 1 := by
        rw [List.getElem?_map, List.getElem?_range htlen] at hk
        simpa using hk.symm
      refine ⟨k, by omega, by omega, hres, hsucc, ?_⟩
      intro j hj1 hjk p hp
      have hjt : j - 1 < t := by omega
      have hjoff : ((List.range players.length).map (· + 1))[j - 1]? = some j := by
        rw [List.getElem?_map, List.getElem?_range (by omega)]
        simp only [Option.map_some']
        congr 1
        omega
      exact hmin (j - 1) j hjt hjoff p hp


/-! ## Association-list lemmas for `setEntry` and `List.lookup` -/

theorem lookup_eq_none_of_not_any {β : Type} (m : List (String × β)) (k : String)
    (h : m.any (fun p => p.1 == k) = false) : m.lookup k = none := by
  induction m with
  | nil => rfl
  | cons q qs ih =>
    simp only [List.any_cons, Bool.or_eq_false_iff] at h
    cases q with
    | mk a b =>
      simp only [List.lookup]
      have hka : (k == a) = false := by
        have h1 := h.1
        simp only [beq_eq_false_iff_ne] at h1 ⊢
        exact fun hk => h1 hk.symm
      rw [hka]
      exact ih h.2

theorem lookup_append_left_none {β : Type} (l₁ l₂ : List (String × β)) (k : String)
    (h : l₁.lookup k = none) : (l₁ ++ l₂).lookup k = l₂.lookup k := by
  induction l₁ with
  | nil => rfl
  | cons q qs ih =>
    cases q with
    | mk a b =>
      simp only [List.lookup, List.cons_append] at h ⊢
      cases hk : (k == a) with
      | true => rw [hk] at h; exact absurd h (by simp)
      | false => rw [hk] at h; exact ih h

theorem lookup_map_setEntry {β : Type} (k : String) (v : β) :
    ∀ m : List (String × β), m.any (fun p => p.1 == k) = true →
      (m.map (fun p => if p.1 == k then (k, v) else p)).lookup k = some v := by
  intro m
  induction m with
  | nil => intro h; simp at h
  | cons q qs ih =>
    intro hany
    cases q with
    | mk a b =>
      simp only [List.any_cons, Bool.or_eq_true] at hany
      simp only [List.map_cons]
      by_cases hak : (a == k) = true
      · rw [if_pos hak]
        simp [List.lookup]
      · rw [if_neg hak]
        have hka : (k == a) = false := by
          simp only [beq_eq_false_iff_ne]
          intro hk
          exact hak (by simp [hk])
        simp only [List.lookup, hka]
        apply ih
        rcases hany with h | h
        · exact absurd h hak
        · exact h

theorem lookup_setEntry {β : Type} (m : List (String × β)) (k : String) (v : β) :
    (setEntry m k v).lookup k = some v := by
  unfold setEntry
  by_cases hany : m.any (fun p => p.1 == k) = true
  · rw [if_pos hany]
    exact lookup_map_setEntry k v m hany
  · rw [if_neg hany]
    rw [lookup_append_left_none _ _ k
      (lookup_eq_none_of_not_any m k (Bool.eq_false_iff.mpr hany))]
    simp [List.lookup]

/-- Looking through the whole pipeline: a statistics entry present
before finalisation is returned unchanged. -/
theorem finalizeState_stats_lookup (now : Int) (t : GameState) (k : String)
    (h : (t.statistics.players.lookup k).isSome = true) :
    (finalizeState now t).statistics.players.lookup k =
      t.statistics.players.lookup k := by
  unfold finalizeState
  have hw := (evaluateWin_preserves now t).2.2.2.2.2.2.1
  have hl := (evaluateLoss_preserves now (evaluateWin now t)).2.2.2.2.2.2.1
  rw [ensureStats_lookup _ k (by rw [hl, hw]; exact h), hl, hw]

/-! ## `drawToHand` lemmas -/

theorem drawToHand_full (hand : List Card) (draw : List Card) (hs : Nat)
    (h : ¬hand.length < hs) : drawToHand hand draw hs = (hand, draw) := by
  cases draw with
  | nil => rfl
  | cons c rest =>
    unfold drawToHand
    rw [if_neg h]

theorem drawToHand_one (hand : List Card) (c : Card) (rest : List Card) (hs : Nat)
    (hlen : hand.length + 1 = hs) :
    drawToHand hand (c :: rest) hs = (hand ++ [c], rest) := by
  unfold drawToHand
  rw [if_pos (by omega)]
  exact drawToHand_full (hand ++ [c]) rest hs (by simp; omega)

/-- Claim C4: in multiplayer with phase `playing` and the actor being
the current player, `endTurn` fails with a minimum-not-met error exactly
when `cardsPlayedThisTurn` is below `requiredCardsForTurn` (1 when the
draw pile is empty, else the configured minimum) and succeeds exactly
when the bound is met; on success it resets `cardsPlayedThisTurn`,
resets every per-turn exception flag, bumps the turn counter, refills
the ending player's hand when auto-refill is off, and advances
`currentPlayerIndex` to the next player in join order holding a card
(wrapping, unchanged when no player holds cards).  Solitaire `endTurn`
returns the state unchanged. -/
theorem endTurn_spec :
    (∀ m : Nat, requiredCardsForTurn m 0 = 1) ∧
    (∀ m n : Nat, n ≠ 0 → requiredCardsForTurn m n = m) ∧
    (∀ now s playerId, s.gamePhase = .playing → s.isSolitaire = true →
      endTurn now s playerId = .ok s) ∧
    (∀ now s playerId cp, s.gamePhase = .playing → s.isSolitaire = false →
      s.players[s.currentPlayerIndex]? = some cp → cp.id = playerId →
      (s.cardsPlayedThisTurn <
          requiredCardsForTurn s.settings.minCardsPerTurn s.drawPile.length ↔
        endTurn now s playerId = .error
          ⟨.MIN_CARDS_NOT_MET, "You must play at least required card(s) before ending your turn"⟩) ∧
      (requiredCardsForTurn s.settings.minCardsPerTurn s.drawPile.length ≤
          s.cardsPlayedThisTurn ↔
        endTurn now s playerId = .ok (finalizeState now (endTurnApply s cp))) ∧
      (∀ s', endTurn now s playerId = .ok s' →
        s'.cardsPlayedThisTurn = 0 ∧
        s'.statistics.turns = s.statistics.turns + 1 ∧
        s'.nasCheat.usedThisTurnByPlayerId =
          s.players.map (fun player => (player.id, false)) ∧
        (s.settings.autoRefillHand = false →
          s'.players = s.players.set s.currentPlayerIndex
            { cp with hand := (drawToHand cp.hand s.drawPile s.settings.handSize).1 } ∧
          s'.drawPile = (drawToHand cp.hand s.drawPile s.settings.handSize).2) ∧
        (s.settings.autoRefillHand = true →
          s'.players = s.players ∧ s'.drawPile = s.drawPile) ∧
        s'.currentPlayerIndex = nextPlayerIndexWithCards s'.players s.currentPlayerIndex)) ∧
    (∀ (players : List Player) (fromIndex : Nat),
      (allHandsEmpty players = true →
        nextPlayerIndexWithCards players fromIndex = fromIndex) ∧
      (allHandsEmpty players = false →
        ∃ k, 1 ≤ k ∧ k ≤ players.length ∧
          nextPlayerIndexWithCards players fromIndex = (fromIndex + k) % players.length ∧
          (∃ p, players[(fromIndex + k) % players.length]? = some p ∧ p.hand ≠ []) ∧
          ∀ j, 1 ≤ j → j < k →
            ∀ p, players[(fromIndex + j) % players.length]? = some p → p.hand = [])) := by
  refine ⟨?_, ?_, ?_, ?_, nextPlayerIndexWithCards_spec⟩
  · intro m
    simp [requiredCardsForTurn]
  · intro m n hn
    simp [requiredCardsForTurn, hn]
  · intro now s playerId hplaying hsol
    unfold endTurn
    rw [if_neg (by simp [hplaying]), if_pos hsol]
  · intro now s playerId cp hplaying hsol hcp hid
    have hred : endTurn now s playerId =
        (if s.cardsPlayedThisTurn <
            requiredCardsForTurn s.settings.minCardsPerTurn s.drawPile.length then
          .error ⟨.MIN_CARDS_NOT_MET,
            "You must play at least required card(s) before ending your turn"⟩
        else .ok (finalizeState now (endTurnApply s cp))) := by
      unfold endTurn
      rw [if_neg (by simp [hplaying]), if_neg (by simp [hsol]), hcp]
      dsimp only
      rw [if_neg (by simp [hid])]
    refine ⟨?_, ?_, ?_⟩
    · constructor
      · intro hlt
        rw [hred, if_pos hlt]
      · intro he
        by_contra hge
        rw [hred, if_neg hge] at he
        exact absurd he (by simp)
    · constructor
      · intro hge
        rw [hred, if_neg (by omega)]
      · intro hok
        by_contra hlt
        rw [hred, if_pos (by omega)] at hok
        exact absurd hok (by simp)
    · intro s' h'
      rw [hred] at h'
      split at h'
      · exact absurd h' (by simp)
      · have hs' := Except.ok.inj h'
        subst hs'
        obtain ⟨p1, p2, p3, p4, p5, p6, p7, p8, p9⟩ :=
          finalizeState_preserves now (endTurnApply s cp)
        refine ⟨?_, ?_, ?_, ?_, ?_, ?_⟩
        · rw [p5]
          exact rfl
        · rw [p6]
          exact rfl
        · rw [p7]
          exact rfl
        · intro haf
          refine ⟨?_, ?_⟩
          · rw [p1]
            simp [endTurnApply, haf]
          · rw [p2]
            simp [endTurnApply, haf]
        · intro haf
          refine ⟨?_, ?_⟩
          · rw [p1]
            simp [endTurnApply, haf]
          · rw [p2]
            simp [endTurnApply, haf]
        · rw [p4, p1]
          exact rfl

/-- Witness for C4: in the concrete two-player state, Ann has met the
minimum (1 card played, draw pile non-empty), so her `endTurn`
succeeds. -/
theorem endTurn_spec_witness :
    endTurn 0 demoMultiState "a" =
      .ok (finalizeState 0 (endTurnApply demoMultiState demoAnn)) :=
  ((endTurn_spec.2.2.2.1 0 demoMultiState "a" demoAnn rfl rfl rfl rfl).2.1).mp
    (by decide)


/-! ## Claim C5: effects of a successful `playCard` -/

/-- Claim C5: on every successful `playCard`, the chosen pile's top is
replaced by the played card, `cardsPlayedThisTurn` grows by exactly 1,
the actor's statistics gain one card played and movement equal to the
absolute difference from the prior top, the special-play counter grows
iff the move used the skip-by-10 exception, and — in solitaire or with
auto-refill on — one replacement card is drawn immediately from a
non-empty draw pile (for a hand that was at the configured hand size). -/
theorem playCard_success_effects
    (now : Int) (s : GameState) (playerId cardId : String) (pileId : Int)
    (i : Nat) (player : Player) (j : Nat) (card : Card) (pile : FoundationPile)
    (hplaying : s.gamePhase = .playing)
    (hfind : s.players.findIdx? (fun p => p.id == playerId) = some i)
    (hpi : s.players[i]? = some player)
    (hturn : s.isSolitaire = true ∨ i = s.currentPlayerIndex)
    (hcard : player.hand.findIdx? (fun c => c.id == cardId) = some j)
    (hcj : player.hand[j]? = some card)
    (hpile : s.foundationPiles.find? (fun p => p.id == pileId) = some pile)
    (hvalid : isValidPlay card pile = true) :
    playCard now s playerId cardId pileId =
      .ok (finalizeState now (playCardApply s i player j card pile pileId)) ∧
    (∀ s', playCard now s playerId cardId pileId = .ok s' →
      s'.foundationPiles = setTopOfFirst s.foundationPiles pileId card ∧
      s'.cardsPlayedThisTurn = s.cardsPlayedThisTurn + 1 ∧
      s'.statistics.players.lookup player.id = some
        { cardsPlayed :=
            ((s.statistics.players.lookup player.id).getD emptyPlayerStats).cardsPlayed + 1,
          totalMovement :=
            ((s.statistics.players.lookup player.id).getD emptyPlayerStats).totalMovement +
              (card.value - pile.topCard.value).natAbs,
          specialPlays :=
            ((s.statistics.players.lookup player.id).getD emptyPlayerStats).specialPlays +
              (if isBackwardTen pile.type (card.value - pile.topCard.value) then 1 else 0),
          nasCheatsUsed :=
            ((s.statistics.players.lookup player.id).getD emptyPlayerStats).nasCheatsUsed } ∧
      (isBackwardTen pile.type (card.value - pile.topCard.value) = true ↔
        ((pile.type = .ascending ∧ card.value = pile.topCard.value - 10) ∨
         (pile.type = .descending ∧ card.value = pile.topCard.value + 10))) ∧
      ((s.isSolitaire || s.settings.autoRefillHand) = true →
        player.hand.length = s.settings.handSize →
        ((s.drawPile = [] →
            s'.players = s.players.set i { player with hand := player.hand.eraseIdx j } ∧
            s'.drawPile = []) ∧
         (∀ c rest, s.drawPile = c :: rest →
            s'.players = s.players.set i
              { player with hand := player.hand.eraseIdx j ++ [c] } ∧
            s'.drawPile = rest))) ∧
      ((s.isSolitaire || s.settings.autoRefillHand) = false →
        s'.players = s.players.set i { player with hand := player.hand.eraseIdx j } ∧
        s'.drawPile = s.drawPile)) := by
  have hshape : playCard now s playerId cardId pileId =
      .ok (finalizeState now (playCardApply s i player j card pile pileId)) := by
    unfold playCard playCardCore
    rw [if_neg (by simp [hplaying]), hfind]
    dsimp only
    rw [if_neg (by rcases hturn with h | h <;> simp [h]), hpi]
    dsimp only
    rw [hcard]
    dsimp only
    rw [hpile]
    dsimp only
    rw [hcj]
    dsimp only
    rw [if_pos hvalid]
    rfl
  refine ⟨hshape, ?_⟩
  intro s' h'
  rw [hshape] at h'
  have hs' := Except.ok.inj h'
  subst hs'
  obtain ⟨p1, p2, p3, p4, p5, p6, p7, p8, p9⟩ :=
    finalizeState_preserves now (playCardApply s i player j card pile pileId)
  have hjlt : j < player.hand.length := by
    rw [List.getElem?_eq_some] at hcj
    exact hcj.1
  have herase : (player.hand.eraseIdx j).length = player.hand.length - 1 := by
    have := List.length_eraseIdx_add_one hjlt
    omega
  refine ⟨?_, ?_, ?_, ?_, ?_, ?_⟩
  · rw [p3]
    exact rfl
  · rw [p5]
    exact rfl
  · rw [finalizeState_stats_lookup now _ player.id ?_]
    · show (setEntry s.statistics.players player.id _).lookup player.id = _
      rw [lookup_setEntry]
    · show ((setEntry s.statistics.players player.id _).lookup player.id).isSome = true
      rw [lookup_setEntry]
      rfl
  · cases htype : pile.type <;> simp [isBackwardTen] <;> omega
  · intro hrefill hfull
    constructor
    · intro hdraw
      refine ⟨?_, ?_⟩
      · rw [p1]
        simp only [playCardApply, hrefill, hdraw, if_true]
        exact rfl
      · rw [p2]
        simp only [playCardApply, hrefill, hdraw, if_true]
        exact rfl
    · intro c rest hdraw
      have hone : drawToHand (player.hand.eraseIdx j) (c :: rest) s.settings.handSize =
          (player.hand.eraseIdx j ++ [c], rest) :=
        drawToHand_one _ _ _ _ (by omega)
      refine ⟨?_, ?_⟩
      · rw [p1]
        simp only [playCardApply, hrefill, hdraw, if_true]
        rw [hone]
      · rw [p2]
        simp only [playCardApply, hrefill, hdraw, if_true]
        rw [hone]
  · intro hrefill
    refine ⟨?_, ?_⟩
    · rw [p1]
      simp only [playCardApply, hrefill]
      rw [if_neg (by simp)]
    · rw [p2]
      simp only [playCardApply, hrefill]
      rw [if_neg (by simp)]

/-- Witness for C5: the first play of the demonstration game. -/
theorem playCard_success_effects_witness :
    playCard 0 demoStart "p1" "c50a" 0 =
      .ok (finalizeState 0 (playCardApply demoStart 0
        { id := "p1", name := "nas", hand := [⟨"c50a", 50⟩], isHost := true } 0
        ⟨"c50a", 50⟩ { id := 0, type := .ascending, topCard := { id := "f-0", value := 1 } } 0)) :=
  (playCard_success_effects 0 demoStart "p1" "c50a" 0 0
    { id := "p1", name := "nas", hand := [⟨"c50a", 50⟩], isHost := true } 0
    ⟨"c50a", 50⟩ { id := 0, type := .ascending, topCard := { id := "f-0", value := 1 } }
    rfl rfl rfl (Or.inl rfl) rfl rfl rfl rfl).1

/-- Counterexample to C7 as stated: a state reachable from
`createStartedGameState` by successful engine operations (four legal
plays, then the exception action) whose phase is still `playing` in
solitaire although the current player has no legal play — `useNasCheat`
skipped the win/loss evaluation. -/
theorem nasCheat_skips_loss_evaluation_counterexample :
    demoResult = .ok demoFinal ∧
    demoFinal.gamePhase = .playing ∧
    demoFinal.isSolitaire = true ∧
    demoFinal.players[demoFinal.currentPlayerIndex]? =
      some { id := "p1", name := "nas", hand := [⟨"c45", 45⟩], isHost := true } ∧
    canPlayerSatisfyRequiredPlays [⟨"c45", 45⟩] demoFinal.foundationPiles
      demoFinal.drawPile 1 (lossSearchAutoRefill demoFinal) = false ∧
    ¬lossEvaluationInForce demoFinal := by
  refine ⟨rfl, rfl, rfl, rfl, rfl, ?_⟩
  intro hforce
  have h := hforce rfl { id := "p1", name := "nas", hand := [⟨"c45", 45⟩], isHost := true } rfl
  rcases h with h | h
  · exact absurd h (by decide)
  · exact absurd h.1 (by decide)

/-! ## Claim C8: the exception action -/

theorem spliceInsert_length (l : List Card) (i : Nat) (x : Card) :
    (spliceInsert l i x).length = l.length + 1 := by
  simp only [spliceInsert, List.length_append, List.length_cons, List.length_take,
    List.length_drop]
  omega

theorem mem_spliceInsert_self (l : List Card) (i : Nat) (x : Card) :
    x ∈ spliceInsert l i x := by
  simp [spliceInsert]

theorem spliceInsert_perm (l : List Card) (i : Nat) (x : Card) :
    List.Perm (spliceInsert l i x) (x :: l) := by
  unfold spliceInsert
  have h : List.Perm (l.take i ++ x :: l.drop i) (x :: (l.take i ++ l.drop i)) :=
    List.perm_middle
  rw [List.take_append_drop] at h
  exact h

/-- `List.set` at the index found by `findIdx?` with a replacement that
still satisfies the predicate leaves `findIdx?` unchanged. -/
theorem findIdx?_set_of_pred {α : Type} (p : α → Bool) :
    ∀ (l : List α) (i : Nat) (x : α), l.findIdx? p = some i → p x = true →
      (l.set i x).findIdx? p = some i := by
  intro l
  induction l with
  | nil => intro i x h _; simp at h
  | cons a as ih =>
    intro i x h hx
    rw [List.findIdx?_cons, List.findIdx?_succ] at h
    by_cases ha : p a = true
    · rw [if_pos ha] at h
      cases Option.some.inj h
      simp [List.set, List.findIdx?_cons, hx]
    · rw [if_neg ha] at h
      cases has : as.findIdx? p with
      | none => rw [has] at h; simp at h
      | some i0 =>
        rw [has] at h
        simp only [Option.map_some'] at h
        cases Option.some.inj h
        show ((a :: as).set (i0 + 1) x).findIdx? p = some (i0 + 1)
        have hset : (a :: as).set (i0 + 1) x = a :: as.set i0 x := rfl
        rw [hset, List.findIdx?_cons, if_neg ha, List.findIdx?_succ, ih i0 x has hx]
        rfl

/-- Claim C8: `useNasCheat` fails unless the phase is `playing`, the
actor is the current player (in multiplayer), is exception-eligible,
has not already used the action this turn, and the draw pile is
non-empty; a second use in the same turn is always rejected.  On success
the traded card leaves the hand, one replacement is drawn (hand size
kept), the traded card is reinserted into the draw pile at the random
position (pile size kept, card still drawable), the per-turn flag is
marked, the exception statistic increments, and the phase never
changes. -/
theorem useNasCheat_spec :
    (∀ s playerId cardId insertAt, s.gamePhase ≠ .playing →
      useNasCheat s playerId cardId insertAt =
        .error ⟨.GAME_NOT_PLAYING, "Cannot use Nas cheat when game is not in playing phase"⟩) ∧
    (∀ s playerId cardId insertAt s', useNasCheat s playerId cardId insertAt = .ok s' →
      s.gamePhase = .playing ∧
      (∃ i, s.players.findIdx? (fun p => p.id == playerId) = some i ∧
        (s.isSolitaire = true ∨ i = s.currentPlayerIndex)) ∧
      s.nasCheat.enabledPlayerIds.contains playerId = true ∧
      (s.nasCheat.usedThisTurnByPlayerId.lookup playerId).getD false = false ∧
      s.drawPile ≠ []) ∧
    (∀ s playerId cardId insertAt i player j traded r rest,
      s.gamePhase = .playing →
      s.players.findIdx? (fun p => p.id == playerId) = some i →
      s.players[i]? = some player →
      (s.isSolitaire = true ∨ i = s.currentPlayerIndex) →
      s.nasCheat.enabledPlayerIds.contains playerId = true →
      (s.nasCheat.usedThisTurnByPlayerId.lookup playerId).getD false = false →
      s.drawPile = r :: rest →
      player.hand.findIdx? (fun c => c.id == cardId) = some j →
      player.hand[j]? = some traded →
      useNasCheat s playerId cardId insertAt =
        .ok (ensureStatsForPlayers
          (useNasCheatApply s playerId i player j traded r rest insertAt)) ∧
      (∀ s', useNasCheat s playerId cardId insertAt = .ok s' →
        s'.players[i]? = some { player with hand := player.hand.eraseIdx j ++ [r] } ∧
        (player.hand.eraseIdx j ++ [r]).length = player.hand.length ∧
        s'.drawPile = spliceInsert rest insertAt traded ∧
        s'.drawPile.length = s.drawPile.length ∧
        traded ∈ s'.drawPile ∧
        (s'.nasCheat.usedThisTurnByPlayerId.lookup playerId).getD false = true ∧
        s'.statistics.players.lookup playerId = some
          { (s.statistics.players.lookup playerId).getD emptyPlayerStats with
            nasCheatsUsed :=
              ((s.statistics.players.lookup playerId).getD emptyPlayerStats).nasCheatsUsed + 1 } ∧
        s'.gamePhase = s.gamePhase ∧
        (((player.hand ++ s.drawPile).map Card.id).Nodup →
          cardId ∉ (player.hand.eraseIdx j ++ [r]).map Card.id) ∧
        (∀ cardId2 insertAt2, useNasCheat s' playerId cardId2 insertAt2 =
          .error ⟨.INVALID_PLAY, "Nas cheat can only be used once per turn"⟩))) := by
  refine ⟨?_, ?_, ?_⟩
  · intro s playerId cardId insertAt hph
    unfold useNasCheat
    rw [if_pos hph]
  · intro s playerId cardId insertAt s' h
    unfold useNasCheat at h
    split at h
    · exact absurd h (by simp)
    rename_i hph
    split at h
    · exact absurd h (by simp)
    rename_i i hfind
    split at h
    · exact absurd h (by simp)
    rename_i hturn
    split at h
    · exact absurd h (by simp)
    rename_i henabled
    split at h
    · exact absurd h (by simp)
    rename_i hflag
    split at h
    · exact absurd h (by simp)
    rename_i r rest hdraw
    refine ⟨by simpa using hph, ⟨i, hfind, ?_⟩, ?_, ?_, by rw [hdraw]; simp⟩
    · by_cases hsol : s.isSolitaire = true
      · exact Or.inl hsol
      · right
        by_contra hne
        exact hturn ⟨by simpa using hsol, hne⟩
    · by_contra hc
      exact henabled (by simpa using hc)
    · cases hb : (s.nasCheat.usedThisTurnByPlayerId.lookup playerId).getD false
      · rfl
      · exact absurd hb hflag
  · intro s playerId cardId insertAt i player j traded r rest hph hfind hpi hturn
      henabled hflag hdraw hcard hcj
    have hshape : useNasCheat s playerId cardId insertAt =
        .ok (ensureStatsForPlayers
          (useNasCheatApply s playerId i player j traded r rest insertAt)) := by
      unfold useNasCheat
      rw [if_neg (by simp [hph]), hfind]
      dsimp only
      rw [if_neg (by rcases hturn with h | h <;> simp [h]),
        if_neg (not_not_intro henabled), if_neg (by simp [hflag]), hdraw]
      dsimp only
      rw [hpi]
      dsimp only
      rw [hcard]
      dsimp only
      rw [hcj]
    refine ⟨hshape, ?_⟩
    intro s' h'
    rw [hshape] at h'
    have hs' := Except.ok.inj h'
    subst hs'
    have hjlt : j < player.hand.length := by
      rw [List.getElem?_eq_some] at hcj
      exact hcj.1
    have hgetj : player.hand[j] = traded := by
      rw [List.getElem?_eq_some] at hcj
      obtain ⟨hh, he⟩ := hcj
      exact he
    have htid : traded.id = cardId := by
      have hp := List.findIdx?_of_eq_some hcard
      rw [hcj] at hp
      simpa using hp
    have hplid : (player.id == playerId) = true := by
      have hp := List.findIdx?_of_eq_some hfind
      rw [hpi] at hp
      simpa using hp
    have herase : (player.hand.eraseIdx j).length = player.hand.length - 1 := by
      have := List.length_eraseIdx_add_one hjlt
      omega
    set mid := useNasCheatApply s playerId i player j traded r rest insertAt with hmid
    obtain ⟨e1, e2, e3, e4, e5, e6, e8, e9, e10⟩ := ensureStats_preserves mid
    refine ⟨?_, ?_, ?_, ?_, ?_, ?_, ?_, ?_, ?_, ?_⟩
    · rw [e1]
      show (s.players.set i _)[i]? = _
      have hilt : i < s.players.length := by
        rw [List.getElem?_eq_some] at hpi
        exact hpi.1
      rw [List.getElem?_set_self (by simpa using hilt)]
    · simp only [List.length_append, List.length_cons, List.length_nil]
      omega
    · rw [e2]
      exact rfl
    · rw [e2]
      show (spliceInsert rest insertAt traded).length = s.drawPile.length
      rw [spliceInsert_length, hdraw]
      simp
    · rw [e2]
      exact mem_spliceInsert_self rest insertAt traded
    · rw [e8]
      show ((setEntry s.nasCheat.usedThisTurnByPlayerId playerId true).lookup playerId).getD
          false = true
      rw [lookup_setEntry]
      rfl
    · rw [ensureStats_lookup mid playerId ?_]
      · show (setEntry s.statistics.players playerId _).lookup playerId = _
        rw [lookup_setEntry]
      · show ((setEntry s.statistics.players playerId _).lookup playerId).isSome = true
        rw [lookup_setEntry]
        rfl
    · exact rfl
    · intro hnodup
      rw [hdraw, List.map_append] at hnodup
      have hdecomp : player.hand.map Card.id =
          (player.hand.map Card.id).take j ++ cardId ::
            (player.hand.map Card.id).drop (j + 1) := by
        have hjm : j < (player.hand.map Card.id).length := by simpa using hjlt
        conv_lhs => rw [← List.take_append_drop j (player.hand.map Card.id)]
        rw [List.drop_eq_getElem_cons hjm]
        congr 2
        rw [List.getElem_map]
        rw [hgetj, htid]
      rw [List.mem_map]
      rintro ⟨c, hcmem, hcid⟩
      rcases List.mem_append.mp hcmem with hcmem | hcmem
      · have hnodup_hand : (player.hand.map Card.id).Nodup :=
          (List.nodup_append.mp hnodup).1
        have h2 : ((player.hand.map Card.id).take j ++ cardId ::
            (player.hand.map Card.id).drop (j + 1)).Nodup := by
          rw [← hdecomp]
          exact hnodup_hand
        rw [List.nodup_middle, List.nodup_cons] at h2
        have hcmem2 : cardId ∈ (player.hand.map Card.id).take j ++
            (player.hand.map Card.id).drop (j + 1) := by
          have hmm : c.id ∈ ((player.hand.eraseIdx j).map Card.id) :=
            List.mem_map.mpr ⟨c, hcmem, rfl⟩
          rw [List.eraseIdx_eq_take_drop_succ, List.map_append, List.map_take,
            List.map_drop] at hmm
          rw [← hcid]
          exact hmm
        exact h2.1 hcmem2
      · have hcr : c = r := by simpa using hcmem
        subst hcr
        have hdisj : (player.hand.map Card.id).Disjoint ((c :: rest).map Card.id) :=
          (List.nodup_append.mp hnodup).2.2
        have hin : cardId ∈ player.hand.map Card.id :=
          List.mem_map.mpr ⟨traded, by
            rw [← hgetj]; exact List.getElem_mem hjlt, htid⟩
        have hrin : c.id ∈ (c :: rest).map Card.id := by simp
        rw [hcid] at hrin
        exact hdisj hin hrin
    · intro cardId2 insertAt2
      have hph' : (ensureStatsForPlayers mid).gamePhase = GamePhase.playing := by
        rw [ensureStatsForPlayers_gamePhase]
        exact hph
      have hfind' : (ensureStatsForPlayers mid).players.findIdx?
          (fun p => p.id == playerId) = some i := by
        rw [e1]
        show (s.players.set i _).findIdx? _ = some i
        exact findIdx?_set_of_pred _ s.players i _ hfind hplid
      have hsol' : (ensureStatsForPlayers mid).isSolitaire = s.isSolitaire := e10
      have hidx' : (ensureStatsForPlayers mid).currentPlayerIndex =
          s.currentPlayerIndex := e4
      have hen' : (ensureStatsForPlayers mid).nasCheat.enabledPlayerIds.contains
          playerId = true := by
        rw [e8]
        exact henabled
      have hfl' : ((ensureStatsForPlayers mid).nasCheat.usedThisTurnByPlayerId.lookup
          playerId).getD false = true := by
        rw [e8]
        show ((setEntry s.nasCheat.usedThisTurnByPlayerId playerId true).lookup
          playerId).getD false = true
        rw [lookup_setEntry]
        rfl
      unfold useNasCheat
      rw [if_neg (by rw [hph']; exact fun hc => hc rfl), hfind']
      dsimp only
      rw [if_neg (by rw [hsol', hidx']; rcases hturn with h | h <;> simp [h]),
        if_neg (not_not_intro hen'), if_pos hfl']

/-- Witness for C8: the exception action of the demonstration game. -/
theorem useNasCheat_spec_witness :
    useNasCheat demoPreNasState "p1" "c60" 0 =
      .ok (ensureStatsForPlayers (useNasCheatApply demoPreNasState "p1" 0
        { id := "p1", name := "nas", hand := [⟨"c60", 60⟩], isHost := true } 0
        ⟨"c60", 60⟩ ⟨"c45", 45⟩ [] 0)) :=
  (useNasCheat_spec.2.2 demoPreNasState "p1" "c60" 0 0
    { id := "p1", name := "nas", hand := [⟨"c60", 60⟩], isHost := true } 0
    ⟨"c60", 60⟩ ⟨"c45", 45⟩ []
    rfl rfl rfl (Or.inl rfl) rfl rfl rfl rfl rfl).1

/-! ## Claim C6: card conservation -/

/-- `drawToHand` only moves cards between the hand and the draw pile. -/
theorem drawToHand_perm (hs : Nat) :
    ∀ (draw hand : List Card),
      List.Perm ((drawToHand hand draw hs).1 ++ (drawToHand hand draw hs).2)
        (hand ++ draw) := by
  intro draw
  induction draw with
  | nil => intro hand; exact List.Perm.refl _
  | cons c rest ih =>
    intro hand
    unfold drawToHand
    by_cases hlen : hand.length < hs
    · rw [if_pos hlen]
      have h := ih (hand ++ [c])
      rw [List.append_assoc] at h
      exact h
    · rw [if_neg hlen]

/-- A list is, up to permutation, the element at `j` consed on the list
with index `j` erased. -/
theorem eraseIdx_cons_perm (l : List Card) (j : Nat) (c : Card)
    (h : l[j]? = some c) : List.Perm l (c :: l.eraseIdx j) := by
  rw [List.getElem?_eq_some] at h
  obtain ⟨hj, hget⟩ := h
  conv_lhs => rw [← List.take_append_drop j l, List.drop_eq_getElem_cons hj, hget]
  rw [List.eraseIdx_eq_take_drop_succ]
  exact List.perm_middle

/-- Replacing the top of the first matching pile retires exactly the
covered top and adds exactly the played card. -/
theorem setTopOfFirst_perm :
    ∀ (piles : List FoundationPile) (pileId : Int) (card : Card) (pile : FoundationPile),
      piles.find? (fun p => p.id == pileId) = some pile →
      List.Perm
        (pile.topCard :: (setTopOfFirst piles pileId card).map FoundationPile.topCard)
        (card :: piles.map FoundationPile.topCard) := by
  intro piles
  induction piles with
  | nil => intro _ _ _ h; simp at h
  | cons p ps ih =>
    intro pileId card pile hfind
    by_cases hp : (p.id == pileId) = true
    · rw [List.find?_cons] at hfind
      simp only [hp] at hfind
      cases Option.some.inj hfind
      simp only [setTopOfFirst, if_pos hp, List.map_cons]
      exact List.Perm.swap _ _ _
    · have hpf : (p.id == pileId) = false := by simpa using hp
      rw [List.find?_cons] at hfind
      simp only [hpf] at hfind
      simp only [setTopOfFirst, if_neg hp, List.map_cons]
      have hrec := ih pileId card pile hfind
      refine List.Perm.trans (List.Perm.swap _ _ _) ?_
      refine List.Perm.trans (List.Perm.cons _ hrec) ?_
      exact List.Perm.swap _ _ _

/-- Replacing the player at index `i` exchanges exactly that player's
hand in the combined pool of hand cards. -/
theorem set_players_flatten_perm :
    ∀ (players : List Player) (i : Nat) (player p' : Player),
      players[i]? = some player →
      List.Perm (((players.set i p').map Player.hand).flatten ++ player.hand)
        ((players.map Player.hand).flatten ++ p'.hand) := by
  intro players
  induction players with
  | nil => intro i _ _ h; simp at h
  | cons q qs ih =>
    intro i player p' h
    cases i with
    | zero =>
      simp only [List.getElem?_cons_zero] at h
      cases Option.some.inj h
      simp only [List.set, List.map_cons, List.flatten_cons]
      rw [List.perm_iff_count]
      intro x
      simp only [List.count_append]
      omega
    | succ n =>
      simp only [List.getElem?_cons_succ] at h
      have hrec := ih n player p' h
      simp only [List.set, List.map_cons, List.flatten_cons]
      rw [List.perm_iff_count]
      intro x
      have hc := hrec.count_eq x
      simp only [List.count_append] at hc ⊢
      omega

theorem allCards_finalize (now : Int) (t : GameState) :
    allCards (finalizeState now t) = allCards t := by
  obtain ⟨p1, p2, p3, _⟩ := finalizeState_preserves now t
  unfold allCards
  rw [p1, p2, p3]

/-- The success path of `playCard` retires exactly the covered top. -/
theorem playCardApply_perm (s : GameState) (i : Nat) (player : Player) (j : Nat)
    (card : Card) (pile : FoundationPile) (pileId : Int)
    (hpi : s.players[i]? = some player)
    (hcj : player.hand[j]? = some card)
    (hpile : s.foundationPiles.find? (fun p => p.id == pileId) = some pile) :
    List.Perm (pile.topCard :: allCards (playCardApply s i player j card pile pileId))
      (allCards s) := by
  set R := (if s.isSolitaire || s.settings.autoRefillHand then
      drawToHand (player.hand.eraseIdx j) s.drawPile s.settings.handSize
    else (player.hand.eraseIdx j, s.drawPile)) with hR
  have hF1 : List.Perm (R.1 ++ R.2) (player.hand.eraseIdx j ++ s.drawPile) := by
    by_cases hcond : (s.isSolitaire || s.settings.autoRefillHand) = true
    · rw [hR, if_pos hcond]
      exact drawToHand_perm s.settings.handSize s.drawPile (player.hand.eraseIdx j)
    · rw [hR, if_neg hcond]
  have hA : allCards (playCardApply s i player j card pile pileId) =
      ((s.players.set i { player with hand := R.1 }).map Player.hand).flatten ++ R.2 ++
        (setTopOfFirst s.foundationPiles pileId card).map FoundationPile.topCard := rfl
  rw [hA, List.perm_iff_count]
  intro x
  have c1 := hF1.count_eq x
  have c2 := (eraseIdx_cons_perm player.hand j card hcj).count_eq x
  have c3 := (setTopOfFirst_perm s.foundationPiles pileId card pile hpile).count_eq x
  have c4 := (set_players_flatten_perm s.players i player
    { player with hand := R.1 } hpi).count_eq x
  simp only [allCards, List.count_append, List.count_cons] at c1 c2 c3 c4 ⊢
  split_ifs at * <;> omega

/-- The success path of `endTurn` preserves the pool of cards. -/
theorem endTurnApply_perm (s : GameState) (cp : Player)
    (hcp : s.players[s.currentPlayerIndex]? = some cp) :
    List.Perm (allCards (endTurnApply s cp)) (allCards s) := by
  by_cases haf : s.settings.autoRefillHand = true
  · have heq : allCards (endTurnApply s cp) = allCards s := by
      have hp1 : (endTurnApply s cp).players = s.players := by
        unfold endTurnApply
        dsimp only
        rw [if_neg (not_not_intro haf)]
      have hp2 : (endTurnApply s cp).drawPile = s.drawPile := by
        unfold endTurnApply
        dsimp only
        rw [if_neg (not_not_intro haf)]
      have hp3 : (endTurnApply s cp).foundationPiles = s.foundationPiles := rfl
      unfold allCards
      rw [hp1, hp2, hp3]
    rw [heq]
  · have hp1 : (endTurnApply s cp).players = s.players.set s.currentPlayerIndex
        { cp with hand := (drawToHand cp.hand s.drawPile s.settings.handSize).1 } := by
      unfold endTurnApply
      dsimp only
      rw [if_pos haf, if_pos haf]
    have hp2 : (endTurnApply s cp).drawPile =
        (drawToHand cp.hand s.drawPile s.settings.handSize).2 := by
      unfold endTurnApply
      dsimp only
      rw [if_pos haf]
    have hp3 : (endTurnApply s cp).foundationPiles = s.foundationPiles := rfl
    rw [List.perm_iff_count]
    intro x
    have c1 := (drawToHand_perm s.settings.handSize s.drawPile cp.hand).count_eq x
    have c4 := (set_players_flatten_perm s.players s.currentPlayerIndex cp
      { cp with hand := (drawToHand cp.hand s.drawPile s.settings.handSize).1 } hcp).count_eq x
    simp only [allCards, hp1, hp2, hp3, List.count_append] at c1 c4 ⊢
    omega

/-- The success path of `useNasCheat` preserves the pool of cards. -/
theorem useNasCheatApply_perm (s : GameState) (playerId : String) (i : Nat)
    (player : Player) (j : Nat) (traded r : Card) (rest : List Card) (insertAt : Nat)
    (hpi : s.players[i]? = some player)
    (hcj : player.hand[j]? = some traded)
    (hdraw : s.drawPile = r :: rest) :
    List.Perm (allCards (useNasCheatApply s playerId i player j traded r rest insertAt))
      (allCards s) := by
  have hA : allCards (useNasCheatApply s playerId i player j traded r rest insertAt) =
      ((s.players.set i { player with hand := player.hand.eraseIdx j ++ [r] }).map
        Player.hand).flatten ++ spliceInsert rest insertAt traded ++
        s.foundationPiles.map FoundationPile.topCard := rfl
  rw [hA, List.perm_iff_count]
  intro x
  have c2 := (eraseIdx_cons_perm player.hand j traded hcj).count_eq x
  have c4 := (set_players_flatten_perm s.players i player
    { player with hand := player.hand.eraseIdx j ++ [r] } hpi).count_eq x
  have c5 := (spliceInsert_perm rest insertAt traded).count_eq x
  have hdc : List.count x s.drawPile = List.count x (r :: rest) := by rw [hdraw]
  simp only [allCards, List.count_append, List.count_cons, List.count_nil]
    at c2 c4 c5 hdc ⊢
  split_ifs at * <;> omega

/-- Successful `playCardCore` pinpointed: the resolved player, card and
pile, and the resulting state. -/
theorem playCardCore_ok_pieces (s : GameState) (playerId cardId : String)
    (pileId : Int) (mid : GameState)
    (h : playCardCore s playerId cardId pileId = .ok mid) :
    ∃ i player j card pile,
      s.players[i]? = some player ∧
      player.hand[j]? = some card ∧
      s.foundationPiles.find? (fun p => p.id == pileId) = some pile ∧
      mid = playCardApply s i player j card pile pileId := by
  unfold playCardCore at h
  split at h
  · exact absurd h (by simp)
  split at h
  · exact absurd h (by simp)
  rename_i i hfind
  split at h
  · exact absurd h (by simp)
  split at h
  · exact absurd h (by simp)
  rename_i player hpi
  split at h
  · exact absurd h (by simp)
  rename_i j hcard
  split at h
  · exact absurd h (by simp)
  rename_i pile hpile
  split at h
  · exact absurd h (by simp)
  rename_i card hcj
  split at h
  · exact ⟨i, player, j, card, pile, hpi, hcj, hpile, (Except.ok.inj h).symm⟩
  · exact absurd h (by simp)

/-- Successful `playCard` retires exactly the covered top card. -/
theorem playCard_perm (now : Int) (s : GameState) (playerId cardId : String)
    (pileId : Int) (s' : GameState)
    (h : playCard now s playerId cardId pileId = .ok s') :
    ∃ pile, s.foundationPiles.find? (fun p => p.id == pileId) = some pile ∧
      List.Perm (pile.topCard :: allCards s') (allCards s) := by
  unfold playCard at h
  cases hc : playCardCore s playerId cardId pileId with
  | error e => rw [hc] at h; exact absurd h (by simp [Except.map])
  | ok mid =>
    rw [hc] at h
    simp only [Except.map] at h
    have hs' := Except.ok.inj h
    subst hs'
    obtain ⟨i, player, j, card, pile, hpi, hcj, hpile, hmid⟩ :=
      playCardCore_ok_pieces s playerId cardId pileId mid hc
    subst hmid
    rw [allCards_finalize]
    exact ⟨pile, hpile, playCardApply_perm s i player j card pile pileId hpi hcj hpile⟩

/-- Successful `endTurn` leaves the combined pool of cards unchanged up
to permutation. -/
theorem endTurn_perm (now : Int) (s : GameState) (playerId : String) (s' : GameState)
    (h : endTurn now s playerId = .ok s') :
    List.Perm (allCards s') (allCards s) := by
  unfold endTurn at h
  split at h
  · exact absurd h (by simp)
  split at h
  · rw [← Except.ok.inj h]
  split at h
  · exact absurd h (by simp)
  rename_i cp hcp
  split at h
  · exact absurd h (by simp)
  split at h
  · exact absurd h (by simp)
  rw [← Except.ok.inj h, allCards_finalize]
  exact endTurnApply_perm s cp hcp

/-- Successful `useNasCheat` leaves the combined pool of cards unchanged
up to permutation. -/
theorem useNasCheat_perm (s : GameState) (playerId cardId : String) (insertAt : Nat)
    (s' : GameState) (h : useNasCheat s playerId cardId insertAt = .ok s') :
    List.Perm (allCards s') (allCards s) := by
  unfold useNasCheat at h
  split at h
  · exact absurd h (by simp)
  split at h
  · exact absurd h (by simp)
  rename_i i hfind
  split at h
  · exact absurd h (by simp)
  split at h
  · exact absurd h (by simp)
  split at h
  · exact absurd h (by simp)
  split at h
  · exact absurd h (by simp)
  rename_i r rest hdraw
  split at h
  · exact absurd h (by simp)
  rename_i player hpi
  split at h
  · exact absurd h (by simp)
  rename_i j hcard
  split at h
  · exact absurd h (by simp)
  rename_i traded hcj
  rw [← Except.ok.inj h]
  have hens : allCards (ensureStatsForPlayers
      (useNasCheatApply s playerId i player j traded r rest insertAt)) =
      allCards (useNasCheatApply s playerId i player j traded r rest insertAt) := rfl
  rw [hens]
  exact useNasCheatApply_perm s playerId i player j traded r rest insertAt hpi hcj hdraw

/-- Claim C6: starting from a started game with pairwise-distinct card
ids, no sequence of successful engine operations ever duplicates a card
id across hands, draw pile and pile tops; each successful `playCard`
shrinks the combined pool (hands + draw pile + the four tops) by exactly
the one retired top, while `endTurn` and `useNasCheat` preserve the
combined multiset of cards. -/
theorem card_conservation :
    (∀ s acts s', runActions s acts = .ok s' →
      ((allCards s).map Card.id).Nodup → ((allCards s').map Card.id).Nodup) ∧
    (∀ now s playerId cardId pileId s',
      playCard now s playerId cardId pileId = .ok s' →
        (allCards s').length + 1 = (allCards s).length) ∧
    (∀ now s playerId s', endTurn now s playerId = .ok s' →
      List.Perm (allCards s') (allCards s)) ∧
    (∀ s playerId cardId insertAt s', useNasCheat s playerId cardId insertAt = .ok s' →
      List.Perm (allCards s') (allCards s)) := by
  have hstep : ∀ s a s1, applyAction s a = .ok s1 →
      ((allCards s).map Card.id).Nodup → ((allCards s1).map Card.id).Nodup := by
    intro s a s1 ha hnd
    cases a with
    | play now playerId cardId pileId =>
      obtain ⟨pile, _, hperm⟩ := playCard_perm now s playerId cardId pileId s1 ha
      have hmap := hperm.map Card.id
      rw [List.map_cons] at hmap
      have := (hmap.nodup_iff).mpr hnd
      exact List.Nodup.of_cons this
    | turnEnd now playerId =>
      have hperm := endTurn_perm now s playerId s1 ha
      exact ((hperm.map Card.id).nodup_iff).mpr hnd
    | nas playerId cardId insertAt =>
      have hperm := useNasCheat_perm s playerId cardId insertAt s1 ha
      exact ((hperm.map Card.id).nodup_iff).mpr hnd
  refine ⟨?_, ?_, ?_, ?_⟩
  · intro s acts
    induction acts generalizing s with
    | nil =>
      intro s' h hnd
      rw [← Except.ok.inj h]
      exact hnd
    | cons a rest ih =>
      intro s' h hnd
      unfold runActions at h
      cases ha : applyAction s a with
      | error e => rw [ha] at h; exact absurd h (by simp)
      | ok s1 =>
        rw [ha] at h
        exact ih s1 s' h (hstep s a s1 ha hnd)
  · intro now s playerId cardId pileId s' h
    obtain ⟨pile, _, hperm⟩ := playCard_perm now s playerId cardId pileId s' h
    have := hperm.length_eq
    simpa using this
  · exact fun now s playerId s' h => endTurn_perm now s playerId s' h
  · exact fun s playerId cardId insertAt s' h =>
      useNasCheat_perm s playerId cardId insertAt s' h

/-- Witness for C6: the demonstration game run (which succeeds) keeps
card ids pairwise distinct. -/
theorem card_conservation_witness :
    ((allCards demoFinal).map Card.id).Nodup :=
  card_conservation.1 demoStart demoActions demoFinal (by rfl) (by decide)

/-- The bucket invariant of the fixed-window limiter: the current
window's accepted events are exactly counted by the bucket, never exceed
the limit, and all accepted events fall before the current window's
end. -/
theorem runRateLimiter_window_invariant (rule : RateLimitRule)
    (hlim : 1 ≤ rule.limit) (hwin : 0 < rule.windowMs) :
    ∀ (events : List Int) (bucket : Option RateBucket),
      List.Pairwise (· ≤ ·) events →
      (∀ b0, bucket = some b0 →
        b0.count ≤ rule.limit ∧ ∀ e ∈ events, b0.windowStartMs ≤ e) →
      ∀ acc bf, runRateLimiter rule bucket events = (acc, bf) →
        (bf = none → bucket = none ∧ acc = []) ∧
        (∀ b, bf = some b →
          b.count ≤ rule.limit ∧
          (acc.filter (fun t => decide (b.windowStartMs ≤ t))).length +
            (match bucket with
             | some b0 => if b.windowStartMs = b0.windowStartMs then b0.count else 0
             | none => 0) = b.count ∧
          (∀ t ∈ acc, t < b.windowStartMs + rule.windowMs) ∧
          (∀ b0, bucket = some b0 →
            b.windowStartMs = b0.windowStartMs ∨
            b0.windowStartMs + rule.windowMs ≤ b.windowStartMs)) := by
  intro events
  induction events with
  | nil =>
    intro bucket _ hb acc bf hrun
    unfold runRateLimiter at hrun
    have hacc : acc = [] := by
      have h1 := congrArg Prod.fst hrun
      simpa using h1.symm
    have hbf : bf = bucket := by
      have h2 := congrArg Prod.snd hrun
      simpa using h2.symm
    subst hacc
    subst hbf
    refine ⟨fun h => ⟨h, rfl⟩, ?_⟩
    intro b hbsome
    obtain ⟨hc, _⟩ := hb b hbsome
    subst hbsome
    refine ⟨hc, ?_, by simp, fun b0 h0 => Or.inl (by cases Option.some.inj h0; rfl)⟩
    simp
  | cons now rest ih =>
    intro bucket hpair hb acc bf hrun
    have hhead : ∀ e ∈ rest, now ≤ e := (List.pairwise_cons.mp hpair).1
    have hrest : List.Pairwise (· ≤ ·) rest := (List.pairwise_cons.mp hpair).2
    unfold runRateLimiter at hrun
    cases bucket with
    | none =>
      simp only [passesRateLimit] at hrun
      cases hrec : runRateLimiter rule (some { windowStartMs := now, count := 1 }) rest with
      | mk acc1 bf1 =>
        rw [hrec] at hrun
        have hacc : acc = now :: acc1 := by
          have h1 := congrArg Prod.fst hrun
          simpa using h1.symm
        have hbf : bf = bf1 := by
          have h2 := congrArg Prod.snd hrun
          simpa using h2.symm
        subst hacc
        subst hbf
        obtain ⟨ih1, ih2⟩ := ih (some { windowStartMs := now, count := 1 }) hrest
          (by
            intro b0 h0
            cases Option.some.inj h0
            exact ⟨hlim, hhead⟩) _ _ hrec
        refine ⟨fun h => absurd (ih1 h).1 (by simp), ?_⟩
        intro b hbsome
        obtain ⟨hcle, hcount, hbound, hmono⟩ := ih2 b hbsome
        have hc := hcount
        dsimp only at hc
        have hstart : b.windowStartMs = now ∨ now + rule.windowMs ≤ b.windowStartMs :=
          hmono { windowStartMs := now, count := 1 } rfl
        refine ⟨hcle, ?_, ?_, fun b0 h0 => by cases h0⟩
        · dsimp only
          simp only [List.filter_cons]
          rcases hstart with heq | hge
          · rw [if_pos (by simp [heq])]
            rw [if_pos heq] at hc
            simp only [List.length_cons]
            omega
          · rw [if_neg (by simp; omega)]
            rw [if_neg (by omega)] at hc
            omega
        · intro t ht
          rcases List.mem_cons.mp ht with rfl | ht
          · rcases hstart with heq | hge <;> omega
          · exact hbound t ht
    | some b0 =>
      obtain ⟨hb0c, hb0s⟩ := hb b0 rfl
      have hb0now : b0.windowStartMs ≤ now := hb0s now (List.mem_cons_self _ _)
      by_cases hreset : now - b0.windowStartMs ≥ rule.windowMs
      · simp only [passesRateLimit, if_pos hreset] at hrun
        cases hrec : runRateLimiter rule (some { windowStartMs := now, count := 1 }) rest with
        | mk acc1 bf1 =>
          rw [hrec] at hrun
          have hacc : acc = now :: acc1 := by
            have h1 := congrArg Prod.fst hrun
            simpa using h1.symm
          have hbf : bf = bf1 := by
            have h2 := congrArg Prod.snd hrun
            simpa using h2.symm
          subst hacc
          subst hbf
          obtain ⟨ih1, ih2⟩ := ih (some { windowStartMs := now, count := 1 }) hrest
            (by
              intro bx hx
              cases Option.some.inj hx
              exact ⟨hlim, hhead⟩) _ _ hrec
          refine ⟨fun h => absurd (ih1 h).1 (by simp), ?_⟩
          intro b hbsome
          obtain ⟨hcle, hcount, hbound, hmono⟩ := ih2 b hbsome
          have hc := hcount
          dsimp only at hc
          have hstart : b.windowStartMs = now ∨ now + rule.windowMs ≤ b.windowStartMs :=
            hmono { windowStartMs := now, count := 1 } rfl
          refine ⟨hcle, ?_, ?_, ?_⟩
          · dsimp only
            have hne : ¬b.windowStartMs = b0.windowStartMs := by
              rcases hstart with heq | hge <;> omega
            rw [if_neg hne]
            simp only [List.filter_cons]
            rcases hstart with heq | hge
            · rw [if_pos (by simp [heq])]
              rw [if_pos heq] at hc
              simp only [List.length_cons]
              omega
            · rw [if_neg (by simp; omega)]
              rw [if_neg (by omega)] at hc
              omega
          · intro t ht
            rcases List.mem_cons.mp ht with rfl | ht
            · rcases hstart with heq | hge <;> omega
            · exact hbound t ht
          · intro bx hx
            cases Option.some.inj hx
            right
            rcases hstart with heq | hge <;> omega
      · by_cases hfull : b0.count ≥ rule.limit
        · simp only [passesRateLimit, if_neg hreset, if_pos hfull] at hrun
          cases hrec : runRateLimiter rule (some b0) rest with
          | mk acc1 bf1 =>
            rw [hrec] at hrun
            have hacc : acc = acc1 := by
              have h1 := congrArg Prod.fst hrun
              simpa using h1.symm
            have hbf : bf = bf1 := by
              have h2 := congrArg Prod.snd hrun
              simpa using h2.symm
            subst hacc
            subst hbf
            obtain ⟨ih1, ih2⟩ := ih (some b0) hrest
              (by
                intro bx hx
                cases Option.some.inj hx
                exact ⟨hb0c, fun e he => hb0s e (List.mem_cons_of_mem _ he)⟩)
              _ _ hrec
            exact ⟨fun h => absurd (ih1 h).1 (by simp), ih2⟩
        · simp only [passesRateLimit, if_neg hreset, if_neg hfull] at hrun
          cases hrec : runRateLimiter rule
              (some { windowStartMs := b0.windowStartMs, count := b0.count + 1 }) rest with
          | mk acc1 bf1 =>
            rw [hrec] at hrun
            have hacc : acc = now :: acc1 := by
              have h1 := congrArg Prod.fst hrun
              simpa using h1.symm
            have hbf : bf = bf1 := by
              have h2 := congrArg Prod.snd hrun
              simpa using h2.symm
            subst hacc
            subst hbf
            obtain ⟨ih1, ih2⟩ := ih
              (some { windowStartMs := b0.windowStartMs, count := b0.count + 1 }) hrest
              (by
                intro bx hx
                cases Option.some.inj hx
                refine ⟨?_, fun e he => hb0s e (List.mem_cons_of_mem _ he)⟩
                show b0.count + 1 ≤ rule.limit
                omega)
              _ _ hrec
            refine ⟨fun h => absurd (ih1 h).1 (by simp), ?_⟩
            intro b hbsome
            obtain ⟨hcle, hcount, hbound, hmono⟩ := ih2 b hbsome
            have hc := hcount
            dsimp only at hc
            have hstart : b.windowStartMs = b0.windowStartMs ∨
                b0.windowStartMs + rule.windowMs ≤ b.windowStartMs :=
              hmono { windowStartMs := b0.windowStartMs, count := b0.count + 1 } rfl
            refine ⟨hcle, ?_, ?_,
              fun bx hx => by cases Option.some.inj hx; exact hstart⟩
            · dsimp only
              simp only [List.filter_cons]
              rcases hstart with heq | hge
              · rw [if_pos (by simp; omega)]
                rw [if_pos heq] at hc
                rw [if_pos heq]
                simp only [List.length_cons]
                omega
              · rw [if_neg (by simp; omega)]
                rw [if_neg (by omega)] at hc
                rw [if_neg (by omega)]
                omega
            · intro t ht
              rcases List.mem_cons.mp ht with rfl | ht
              · rcases hstart with heq | hge <;> omega
              · exact hbound t ht

/-- Claim C10 (amended): per connection and action type (`game:join`
limit 10, `game:lookup` limit 20, `game:playCard` limit 60, window
10000 ms), the limiter enforces a fixed window: a window opens at the
first event after the previous window expires, and within any such
window at most `limit` events are accepted; a refused event is
acknowledged with a rate-limit failure without invoking the room
manager or engine.  (The window is not sliding — see the
counterexample.) -/
theorem rate_limit_fixed_window :
    (joinRateLimit.limit = 10 ∧ lookupRateLimit.limit = 20 ∧
     playCardRateLimit.limit = 60 ∧ joinRateLimit.windowMs = 10000 ∧
     lookupRateLimit.windowMs = 10000 ∧ playCardRateLimit.windowMs = 10000) ∧
    (∀ rule : RateLimitRule, 1 ≤ rule.limit → 0 < rule.windowMs →
      ∀ (events acc : List Int) (b : RateBucket), List.Pairwise (· ≤ ·) events →
        runRateLimiter rule none events = (acc, some b) →
        (acc.filter (fun t => decide (b.windowStartMs ≤ t ∧
            t < b.windowStartMs + rule.windowMs))).length ≤ rule.limit) ∧
    (∀ (rule : RateLimitRule) (bucket : Option RateBucket) (now : Int),
      (passesRateLimit rule bucket now).1 = false →
      handleRateLimitedEvent rule bucket now =
        (.rateLimited, false, (passesRateLimit rule bucket now).2)) := by
  refine ⟨⟨rfl, rfl, rfl, rfl, rfl, rfl⟩, ?_, ?_⟩
  · intro rule hlim hwin events acc b hpair hrun
    obtain ⟨_, h2⟩ := runRateLimiter_window_invariant rule hlim hwin events none hpair
      (by intro b0 h0; cases h0) acc (some b) hrun
    obtain ⟨hcle, hcount, hbound, _⟩ := h2 b rfl
    have hfe : acc.filter (fun t => decide (b.windowStartMs ≤ t ∧
        t < b.windowStartMs + rule.windowMs)) =
        acc.filter (fun t => decide (b.windowStartMs ≤ t)) := by
      apply List.filter_congr
      intro t ht
      have := hbound t ht
      simp only [decide_eq_decide]
      constructor
      · exact fun h => h.1
      · exact fun h => ⟨h, this⟩
    rw [hfe]
    have hc := hcount
    dsimp only at hc
    omega
  · intro rule bucket now hfail
    unfold handleRateLimitedEvent
    rw [if_neg (by simp [hfail])]

/-- Witness for C10 (amended): three quick events on a fresh `game:join`
bucket stay within the fixed window and under the limit. -/
theorem rate_limit_fixed_window_witness :
    ((([0, 1, 2] : List Int).filter (fun t => decide (((0:Int) ≤ t ∧
        t < (0:Int) + joinRateLimit.windowMs)))).length ≤ joinRateLimit.limit) :=
  rate_limit_fixed_window.2.1 joinRateLimit (by decide) (by decide)
    [0, 1, 2] [0, 1, 2] { windowStartMs := 0, count := 3 } (by decide) (by rfl)

/-- Counterexample to C10 as stated: the limiter is a fixed-window
counter, so a sliding 10-second window can see 19 accepted `game:join`
events although the configured limit is 10. -/
theorem rate_limit_not_sliding_counterexample :
    joinRateLimit.limit = 10 ∧
    joinRateLimit.windowMs = 10000 ∧
    List.Pairwise (· ≤ ·) joinFloodEvents ∧
    (((runRateLimiter joinRateLimit none joinFloodEvents).1.filter
      (fun t => decide ((5000:Int) ≤ t ∧ t < 15000))).length = 19) ∧
    joinRateLimit.limit < 19 := by
  refine ⟨rfl, rfl, by decide, by decide, by decide⟩

end UpNDown
